import Mathlib

/-!
Shallow embedding of the AnyCache master metadata subsystem and worker block
cache engine, together with theorems settling the specification claims.

Conventions of the embedding:
* C++ unsigned machine integers are modelled as `Nat`, with `% 2 ^ 64`
  inserted exactly where 64-bit overflow can occur in the source.
* C++ `std::string` values (names, owners, groups) are byte strings and are
  modelled as `List Nat` of byte values.
* `std::unordered_map` and `std::list` containers are modelled as association
  lists / lists; an iterator-index map that mirrors a list (as in
  `LRUPolicy::map_`) is folded into the list itself.
* `Status` carries only the kind; human-readable messages are elided.
* Fallible RocksDB commits are modelled by an explicit oracle argument: the
  commit succeeds iff the oracle bit is `true`, mirroring an I/O failure.
* Wall-clock reads (`NowMs`) are passed in as explicit `now` arguments.
-/

namespace AnyCache

/-- Status kinds from common/status.h (messages elided). -/
inductive Status where
  | ok
  | notFound
  | alreadyExists
  | invalidArgument
  | ioError
  | resourceExhausted
  | unavailable
  | internal
  deriving DecidableEq, Repr

/-- Association-list lookup, modelling `std::unordered_map::find`. -/
def lookupA {α β : Type} [DecidableEq α] : List (α × β) → α → Option β
  | [], _ => none
  | (k, v) :: rest, key => if k = key then some v else lookupA rest key

/-- Association-list insert-or-assign, modelling `map[k] = v`. -/
def insertA {α β : Type} [DecidableEq α] : List (α × β) → α → β → List (α × β)
  | [], key, val => [(key, val)]
  | (k, v) :: rest, key, val =>
      if k = key then (k, val) :: rest else (k, v) :: insertA rest key val

/-- Association-list erase, modelling `std::unordered_map::erase`. -/
def eraseA {α β : Type} [DecidableEq α] : List (α × β) → α → List (α × β)
  | [], _ => []
  | (k, v) :: rest, key => if k = key then rest else (k, v) :: eraseA rest key

/-- Membership test, modelling `map.count(k) > 0`. -/
def containsA {α β : Type} [DecidableEq α] (m : List (α × β)) (key : α) : Bool :=
  (lookupA m key).isSome

/-- The modulus of 64-bit unsigned arithmetic. -/
def U64 : Nat := 2 ^ 64

-- ─── Composite block identifier (common/types.h) ───────────────────────────

def kBlockIndexBits : Nat := 24

def kBlockIndexMask : Nat := 2 ^ kBlockIndexBits - 1

def kMaxInodeId : Nat := 2 ^ 40 - 1

def kMaxBlockIndexConst : Nat := 2 ^ kBlockIndexBits - 1

/-- MakeBlockId from common/types.h:
`(uint64(inode_id) << kBlockIndexBits) | (block_index & kBlockIndexMask)`. -/
def MakeBlockId (inode_id : Nat) (block_index : Nat) : Nat :=
  ((inode_id <<< kBlockIndexBits) % U64) ||| (block_index &&& kBlockIndexMask)

/-- GetInodeId from common/types.h: `block_id >> kBlockIndexBits`. -/
def GetInodeId (block_id : Nat) : Nat :=
  block_id >>> kBlockIndexBits

/-- GetBlockIndex from common/types.h: `block_id & kBlockIndexMask`. -/
def GetBlockIndex (block_id : Nat) : Nat :=
  block_id &&& kBlockIndexMask

-- ─── Inode record serialization (master/inode_entry.h) ─────────────────────

/-- In-memory inode from master/inode_tree.h.  Byte strings are `List Nat`;
timestamps are the 64-bit bit patterns of the C++ `int64_t` fields (`NowMs`
values are non-negative, so pattern and value coincide). -/
structure Inode where
  id : Nat := 0
  parent_id : Nat := 0
  name : List Nat := []
  is_directory : Bool := false
  size : Nat := 0
  mode : Nat := 0o644
  owner : List Nat := []
  group : List Nat := []
  block_size : Nat := 64 * 1024 * 1024
  creation_time_ms : Nat := 0
  modification_time_ms : Nat := 0
  children : List (List Nat × Nat) := []
  is_complete : Bool := true
  deriving DecidableEq, Repr

def kInodeEntryFlagDirectory : Nat := 0x01

def kInodeEntryFlagComplete : Nat := 0x02

/-- Little-endian encoding of `v` into `w` bytes, modelling the `memcpy` of a
fixed-width unsigned field on a little-endian machine. -/
def encodeLE : Nat → Nat → List Nat
  | 0, _ => []
  | w + 1, v => v % 256 :: encodeLE w (v / 256)

/-- Little-endian decoding of a byte list. -/
def decodeLE : List Nat → Nat
  | [] => 0
  | b :: rest => b + 256 * decodeLE rest

/-- Owner/group dictionary state (inode_entry.h `OwnerGroupDict`).  The
`owner_to_id_` / `group_to_id_` hash maps mirror the lists (string at index
`i` has id `i + 1`), so the model keeps only the lists.  The dirty flag is
used solely to schedule dictionary persistence and is elided here. -/
structure OwnerGroupDict where
  owners : List (List Nat) := []
  groups : List (List Nat) := []
  deriving DecidableEq, Repr

/-- First index of `s` in `list`, modelling the id map lookup (the map holds
the first-inserted id for each distinct string). -/
def idxOf : List (List Nat) → List Nat → Option Nat
  | [], _ => none
  | x :: rest, s =>
      if x = s then some 0
      else match idxOf rest s with
        | some i => some (i + 1)
        | none => none

/-- OwnerGroupDict::GetOrAdd: empty string maps to 0; a known string keeps its
1-based id; a new string is appended unless 255 ids are already taken. -/
def getOrAdd (s : List Nat) (list : List (List Nat)) : Nat × List (List Nat) :=
  if s = [] then (0, list)
  else
    match idxOf list s with
    | some i => (i + 1, list)
    | none =>
        if 255 ≤ list.length then (0, list)
        else (list.length + 1, list ++ [s])

/-- OwnerGroupDict::Lookup: 1-based id to string, empty for 0 or unknown. -/
def lookupDict (id : Nat) (list : List (List Nat)) : List Nat :=
  if id = 0 ∨ list.length < id then [] else list.getD (id - 1) []

/-- Byte stream of the dictionary entries: each string is stored as a length
byte (capped at 255) followed by that many bytes. -/
def serializeEntries : List (List Nat) → List Nat
  | [] => []
  | s :: rest => min s.length 255 :: s.take 255 ++ serializeEntries rest

/-- OwnerGroupDict::SerializeList: count byte (capped at 255) then entries. -/
def serializeList (list : List (List Nat)) : List Nat :=
  min list.length 255 :: serializeEntries list

/-- Entry-reading loop of OwnerGroupDict::DeserializeList: reads up to `count`
entries while bytes remain; a truncated final entry is shortened. -/
def deserializeEntries : Nat → List Nat → List (List Nat)
  | 0, _ => []
  | _ + 1, [] => []
  | count + 1, len :: rest =>
      (rest.take (min len rest.length)) ::
        deserializeEntries count (rest.drop (min len rest.length))

/-- OwnerGroupDict::DeserializeList. -/
def deserializeList (data : List Nat) : List (List Nat) :=
  match data with
  | [] => []
  | count :: rest => deserializeEntries count rest

/-- Cold-restart reload of both dictionaries
(InodeStore::Open → LoadOwners/LoadGroups). -/
def reloadDict (d : OwnerGroupDict) : OwnerGroupDict :=
  { owners := deserializeList (serializeList d.owners)
    groups := deserializeList (serializeList d.groups) }

/-- SerializeInodeEntry from master/inode_entry.h: the 48-byte header (fields
in declaration order, little-endian, one padding byte) followed by the raw
name bytes.  Returns the updated dictionary since GetOrAdd may extend it. -/
def SerializeInodeEntry (inode : Inode) (dict : OwnerGroupDict) :
    List Nat × OwnerGroupDict :=
  let o := getOrAdd inode.owner dict.owners
  let g := getOrAdd inode.group dict.groups
  let flags := (if inode.is_directory then kInodeEntryFlagDirectory else 0) |||
    (if inode.is_complete then kInodeEntryFlagComplete else 0)
  (encodeLE 8 inode.parent_id ++ encodeLE 8 inode.size ++
      encodeLE 8 inode.block_size ++ encodeLE 8 inode.creation_time_ms ++
      encodeLE 8 inode.modification_time_ms ++ encodeLE 4 inode.mode ++
      [flags, o.1, g.1, 0] ++ inode.name,
    { owners := o.2, groups := g.2 })

/-- DeserializeInodeEntry from master/inode_entry.h: data shorter than the
48-byte header yields a default inode carrying only the key id; otherwise the
header fields are read back and owner/group resolved through the dictionary. -/
def DeserializeInodeEntry (id : Nat) (data : List Nat)
    (dict : OwnerGroupDict) : Inode :=
  if data.length < 48 then { id := id }
  else
    let flags := data.getD 44 0
    { id := id
      parent_id := decodeLE (data.take 8)
      size := decodeLE ((data.drop 8).take 8)
      block_size := decodeLE ((data.drop 16).take 8)
      creation_time_ms := decodeLE ((data.drop 24).take 8)
      modification_time_ms := decodeLE ((data.drop 32).take 8)
      mode := decodeLE ((data.drop 40).take 4)
      is_directory := flags &&& kInodeEntryFlagDirectory != 0
      is_complete := flags &&& kInodeEntryFlagComplete != 0
      owner := lookupDict (data.getD 45 0) dict.owners
      group := lookupDict (data.getD 46 0) dict.groups
      name := data.drop 48 }

-- ─── Inode store and tree (master/inode_store.cpp, master/inode_tree.cpp) ──

/-- One operation of a `rocksdb::WriteBatch` as built by the InodeStore batch
helpers.  Inode values are kept logically: the serialize/deserialize pair
preserves the header fields and name (see the C3 theorems) and drops the
children map, so `putInode` stores the inode with an empty children map. -/
inductive BatchOp where
  | putInode (id : Nat) (inode : Inode)
  | deleteInode (id : Nat)
  | putEdge (parent : Nat) (name : List Nat) (child : Nat)
  | deleteEdge (parent : Nat) (name : List Nat)
  | putNextId (next : Nat)
  deriving DecidableEq, Repr

/-- Durable contents of the InodeStore: the `inodes` and `edges` column
families and the allocator-cursor sentinel key. -/
structure StoreState where
  inodes : List (Nat × Inode) := []
  edges : List ((Nat × List Nat) × Nat) := []
  nextIdVal : Option Nat := none
  deriving DecidableEq, Repr

def applyOp (s : StoreState) : BatchOp → StoreState
  | .putInode id inode =>
      { s with inodes := insertA s.inodes id { inode with children := [] } }
  | .deleteInode id => { s with inodes := eraseA s.inodes id }
  | .putEdge p n c => { s with edges := insertA s.edges (p, n) c }
  | .deleteEdge p n => { s with edges := eraseA s.edges (p, n) }
  | .putNextId v => { s with nextIdVal := some v }

def applyBatch (s : StoreState) (b : List BatchOp) : StoreState :=
  b.foldl applyOp s

/-- InodeStore::CommitBatch with an explicit success oracle: on success the
batch is applied atomically, on failure (an I/O error) nothing is written. -/
def commitBatch (ok : Bool) (s : StoreState) (b : List BatchOp) :
    Status × StoreState :=
  if ok then (Status.ok, applyBatch s b) else (Status.ioError, s)

/-- InodeStore::GetInode: point lookup of the deserialized record. -/
def storeGetInode (s : StoreState) (id : Nat) : Option Inode :=
  lookupA s.inodes id

def kRootId : Nat := 1

def kIdAllocBatchSize : Nat := 1000

/-- InodeTree state in two-tier mode (`store_ != nullptr`): the in-memory
directory map `dir_inodes_`, the allocator fields, and the injected store. -/
structure TreeState where
  dirInodes : List (Nat × Inode) := []
  nextId : Nat := 2
  allocEnd : Nat := 2
  store : StoreState := {}
  deriving DecidableEq, Repr

/-- InodeTree::AllocateId: hands out the next id and, when the pre-allocated
batch is exhausted, persists the advanced cursor with a best-effort commit
whose status is ignored. -/
def allocateId (s : TreeState) (cursorOk : Bool) : Nat × TreeState :=
  let id := s.nextId
  let s1 := { s with nextId := s.nextId + 1 }
  if s1.allocEnd ≤ id then
    let allocEnd := id + kIdAllocBatchSize
    let store' := (commitBatch cursorOk s1.store [.putNextId allocEnd]).2
    (id, { s1 with allocEnd := allocEnd, store := store' })
  else (id, s1)

/-- InodeTree::ResolvePathLocked: walk the directory map from `current`; a
missing inode or child is NotFound, a non-directory interior node is
InvalidArgument. -/
def resolvePathLocked (dirs : List (Nat × Inode)) :
    List (List Nat) → Nat → Status × Nat
  | [], current => (Status.ok, current)
  | part :: rest, current =>
      match lookupA dirs current with
      | none => (Status.notFound, 0)
      | some node =>
          if !node.is_directory then (Status.invalidArgument, 0)
          else
            match lookupA node.children part with
            | none => (Status.notFound, 0)
            | some child => resolvePathLocked dirs rest child

/-- Parent-resolution loop shared by CreateFile, Delete and Rename: walks the
proper prefix of the path through the directory map and children maps without
checking directory kinds; any miss is NotFound. -/
def resolveParentChain (dirs : List (Nat × Inode)) :
    List (List Nat) → Nat → Option Nat
  | [], current => some current
  | part :: rest, current =>
      match lookupA dirs current with
      | none => none
      | some node =>
          match lookupA node.children part with
          | none => none
          | some child => resolveParentChain dirs rest child

/-- InodeTree::CreateFile in two-tier mode.  The `dir_inodes_[parent_id]`
C++ subscript default-inserts a missing entry, which the model reproduces.
`parts` is the output of SplitPath.  Returns (status, state, new id). -/
def createFile (s : TreeState) (parts : List (List Nat)) (mode now : Nat)
    (cursorOk commitOk : Bool) : Status × TreeState × Option Nat :=
  if parts.isEmpty then (Status.invalidArgument, s, none)
  else
    match resolveParentChain s.dirInodes parts.dropLast kRootId with
    | none => (Status.notFound, s, none)
    | some parentId =>
        let dirs := if containsA s.dirInodes parentId then s.dirInodes
          else insertA s.dirInodes parentId {}
        let s1 := { s with dirInodes := dirs }
        let parent := (lookupA dirs parentId).getD {}
        if !parent.is_directory then (Status.invalidArgument, s1, none)
        else
          let filename := (parts.getLast?).getD []
          if containsA parent.children filename then
            (Status.alreadyExists, s1, none)
          else
            let alloc := allocateId s1 cursorOk
            let newId := alloc.1
            let s2 := alloc.2
            let inode : Inode :=
              { id := newId, parent_id := parentId, name := filename
                is_directory := false, mode := mode, creation_time_ms := now
                modification_time_ms := now, is_complete := false }
            match commitBatch commitOk s2.store
                [.putInode newId inode, .putEdge parentId filename newId] with
            | (Status.ok, store') =>
                let kids' := insertA parent.children filename newId
                let parent' := { parent with children := kids' }
                let dirs' := insertA s2.dirInodes parentId parent'
                (Status.ok, { s2 with store := store', dirInodes := dirs' },
                  some newId)
            | (st, _) => (st, s2, none)

/-- Loop body of InodeTree::CreateDirectory.  `batchOracle`/`cursorOracle`
give the outcome of the i-th creation's batch commit / cursor commit,
`created` counts creations so far. -/
def createDirGo (s : TreeState) (remaining : List (List Nat)) (current : Nat)
    (recursive : Bool) (mode now : Nat) (batchOracle cursorOracle : Nat → Bool)
    (created : Nat) : Status × TreeState × Option Nat :=
  match remaining with
  | [] => (Status.ok, s, some current)
  | part :: rest =>
      let dirs := if containsA s.dirInodes current then s.dirInodes
        else insertA s.dirInodes current {}
      let s1 := { s with dirInodes := dirs }
      let node := (lookupA dirs current).getD {}
      if !node.is_directory then (Status.invalidArgument, s1, none)
      else
        match lookupA node.children part with
        | some child =>
            if rest.isEmpty then (Status.alreadyExists, s1, some child)
            else createDirGo s1 rest child recursive mode now batchOracle
              cursorOracle created
        | none =>
            if !recursive && !rest.isEmpty then (Status.notFound, s1, none)
            else
              let alloc := allocateId s1 (cursorOracle created)
              let newId := alloc.1
              let s2 := alloc.2
              let dir : Inode :=
                { id := newId, parent_id := current, name := part
                  is_directory := true, mode := mode, creation_time_ms := now
                  modification_time_ms := now }
              match commitBatch (batchOracle created) s2.store
                  [.putInode newId dir, .putEdge current part newId] with
              | (Status.ok, store') =>
                  let s3 := { s2 with store := store' }
                  let parentNode := (lookupA s3.dirInodes current).getD {}
                  let kids' := insertA parentNode.children part newId
                  let parentNode' := { parentNode with children := kids' }
                  let dirs' :=
                    insertA (insertA s3.dirInodes current parentNode')
                      newId dir
                  let s4 := { s3 with dirInodes := dirs' }
                  createDirGo s4 rest newId recursive mode now batchOracle
                    cursorOracle (created + 1)
              | (st, _) => (st, s2, none)

/-- InodeTree::CreateDirectory in two-tier mode. -/
def createDirectory (s : TreeState) (parts : List (List Nat)) (mode : Nat)
    (recursive : Bool) (now : Nat) (batchOracle cursorOracle : Nat → Bool) :
    Status × TreeState × Option Nat :=
  if parts.isEmpty then (Status.ok, s, some kRootId)
  else createDirGo s parts kRootId recursive mode now batchOracle
    cursorOracle 0

/-- InodeTree::CompleteFile in two-tier mode: read-modify-write through the
store; the directory map is never touched. -/
def completeFile (s : TreeState) (id size now : Nat) (commitOk : Bool) :
    Status × TreeState :=
  match storeGetInode s.store id with
  | none =>
      if containsA s.dirInodes id then (Status.invalidArgument, s)
      else (Status.notFound, s)
  | some inode =>
      if inode.is_directory then (Status.invalidArgument, s)
      else
        let inode' :=
          { inode with size := size, is_complete := true
                       modification_time_ms := now }
        let c := commitBatch commitOk s.store [.putInode id inode']
        (c.1, { s with store := c.2 })

/-- InodeTree::UpdateSize in two-tier mode.  When the id is in the directory
map the in-memory entry is mutated before the commit, mirroring the source. -/
def updateSize (s : TreeState) (id newSize now : Nat) (commitOk : Bool) :
    Status × TreeState :=
  match lookupA s.dirInodes id with
  | some node =>
      let node' := { node with size := newSize, modification_time_ms := now }
      let s1 := { s with dirInodes := insertA s.dirInodes id node' }
      let c := commitBatch commitOk s1.store [.putInode id node']
      (c.1, { s1 with store := c.2 })
  | none =>
      match storeGetInode s.store id with
      | none => (Status.notFound, s)
      | some inode =>
          let inode' :=
            { inode with size := newSize
                         modification_time_ms := now }
          let c := commitBatch commitOk s.store [.putInode id inode']
          (c.1, { s with store := c.2 })

/-- InodeTree::CollectSubtreeForDeletion, with a fuel bound standing in for
the structural recursion of the C++ (which terminates because real directory
states are acyclic).  Returns (edges, inode ids, directory ids). -/
def collectSubtree (dirs : List (Nat × Inode)) :
    Nat → Nat → List (Nat × List Nat) × List Nat × List Nat
  | 0, _ => ([], [], [])
  | fuel + 1, dirId =>
      match lookupA dirs dirId with
      | none => ([], [], [])
      | some node =>
          node.children.foldl
            (fun acc nc =>
              let edges := acc.1 ++ [(dirId, nc.1)]
              let iids := acc.2.1 ++ [nc.2]
              if containsA dirs nc.2 then
                let sub := collectSubtree dirs fuel nc.2
                (edges ++ sub.1, iids ++ sub.2.1,
                  (acc.2.2 ++ [nc.2]) ++ sub.2.2)
              else (edges, iids, acc.2.2))
            ([], [], [])

/-- InodeTree::RemoveDirSubtreeFromMemory, fuel-bounded as above. -/
def removeDirSubtree : Nat → List (Nat × Inode) → Nat → List (Nat × Inode)
  | 0, dirs, _ => dirs
  | fuel + 1, dirs, id =>
      match lookupA dirs id with
      | none => dirs
      | some node =>
          let dirs1 := node.children.foldl
            (fun ds nc => removeDirSubtree fuel ds nc.2) dirs
          node.children.foldl (fun ds nc => eraseA ds nc.2) dirs1

/-- Commit-and-memorize tail of InodeTree::Delete (two-tier branch). -/
def deleteCommit (s : TreeState) (id : Nat) (isDir : Bool) (parentId : Nat)
    (targetName : List Nat) (recursive commitOk : Bool) : Status × TreeState :=
  let base : List BatchOp := [.deleteInode id, .deleteEdge parentId targetName]
  let batch := if isDir && recursive then
      let sub := collectSubtree s.dirInodes s.dirInodes.length id
      base ++ sub.1.map (fun pc => BatchOp.deleteEdge pc.1 pc.2) ++
        sub.2.1.map BatchOp.deleteInode
    else base
  match commitBatch commitOk s.store batch with
  | (Status.ok, store') =>
      let s1 := { s with store := store' }
      let s2 := match lookupA s1.dirInodes parentId with
        | some p =>
            let p' := { p with children := eraseA p.children targetName }
            { s1 with dirInodes := insertA s1.dirInodes parentId p' }
        | none => s1
      let s3 := if isDir then
          let dirs := if recursive then
              removeDirSubtree s2.dirInodes.length s2.dirInodes id
            else s2.dirInodes
          { s2 with dirInodes := eraseA dirs id }
        else s2
      (Status.ok, s3)
  | (st, _) => (st, s)

/-- InodeTree::Delete in two-tier mode. -/
def deleteOp (s : TreeState) (parts : List (List Nat)) (recursive : Bool)
    (commitOk : Bool) : Status × TreeState :=
  if parts.isEmpty then (Status.invalidArgument, s)
  else
    match resolvePathLocked s.dirInodes parts kRootId with
    | (Status.ok, id) =>
        let isDir := containsA s.dirInodes id
        let targetName := (parts.getLast?).getD []
        if isDir then
          let inode := (lookupA s.dirInodes id).getD {}
          if !inode.children.isEmpty && !recursive then
            (Status.invalidArgument, s)
          else deleteCommit s id isDir inode.parent_id targetName recursive
            commitOk
        else
          match resolveParentChain s.dirInodes parts.dropLast kRootId with
          | none => (Status.notFound, s)
          | some pid =>
              deleteCommit s id isDir pid targetName recursive commitOk
    | (st, _) => (st, s)

/-- InodeTree::Rename in two-tier mode. -/
def rename (s : TreeState) (srcParts dstParts : List (List Nat))
    (commitOk : Bool) : Status × TreeState :=
  if srcParts.isEmpty || dstParts.isEmpty then (Status.invalidArgument, s)
  else
    match resolvePathLocked s.dirInodes srcParts kRootId with
    | (Status.ok, srcId) =>
        match resolveParentChain s.dirInodes dstParts.dropLast kRootId with
        | none => (Status.notFound, s)
        | some dstParentId =>
            let newName := (dstParts.getLast?).getD []
            let dirs := if containsA s.dirInodes dstParentId then s.dirInodes
              else insertA s.dirInodes dstParentId {}
            let s1 := { s with dirInodes := dirs }
            let newParent := (lookupA dirs dstParentId).getD {}
            if !newParent.is_directory then (Status.invalidArgument, s1)
            else if containsA newParent.children newName then
              (Status.alreadyExists, s1)
            else
              let isDir := containsA s1.dirInodes srcId
              let oldInfo : Option (Nat × List Nat) :=
                if isDir then
                  let src := (lookupA s1.dirInodes srcId).getD {}
                  some (src.parent_id, src.name)
                else
                  match resolveParentChain s1.dirInodes srcParts.dropLast
                      kRootId with
                  | none => none
                  | some pid => some (pid, (srcParts.getLast?).getD [])
              match oldInfo with
              | none => (Status.notFound, s1)
              | some (oldParentId, oldName) =>
                  let inodeOpt : Option Inode :=
                    if isDir then some ((lookupA s1.dirInodes srcId).getD {})
                    else storeGetInode s1.store srcId
                  match inodeOpt with
                  | none => (Status.notFound, s1)
                  | some inode0 =>
                      let inode :=
                        { inode0 with parent_id := dstParentId
                                      name := newName }
                      match commitBatch commitOk s1.store
                          [.putInode srcId inode,
                            .deleteEdge oldParentId oldName,
                            .putEdge dstParentId newName srcId] with
                      | (Status.ok, store') =>
                          let s2 := { s1 with store := store' }
                          let dirs2 := if containsA s2.dirInodes oldParentId
                            then s2.dirInodes
                            else insertA s2.dirInodes oldParentId {}
                          let oldP := (lookupA dirs2 oldParentId).getD {}
                          let oldKids := eraseA oldP.children oldName
                          let oldP' := { oldP with children := oldKids }
                          let dirs3 := insertA dirs2 oldParentId oldP'
                          let dstP := (lookupA dirs3 dstParentId).getD {}
                          let dstKids := insertA dstP.children newName srcId
                          let dstP' := { dstP with children := dstKids }
                          let dirs4 := insertA dirs3 dstParentId dstP'
                          let dirs5 := if isDir then
                              let srcN := (lookupA dirs4 srcId).getD {}
                              let srcN' :=
                                { srcN with name := newName
                                            parent_id := dstParentId }
                              insertA dirs4 srcId srcN'
                            else dirs4
                          (Status.ok, { s2 with dirInodes := dirs5 })
                      | (st, _) => (st, s1)
    | (st, _) => (st, s)

/-- FileSystemMaster::Mkdir: idempotent directory creation — AlreadyExists
from the tree is mapped to OK. -/
def mkdir (s : TreeState) (parts : List (List Nat)) (mode : Nat)
    (recursive : Bool) (now : Nat) (batchOracle cursorOracle : Nat → Bool) :
    Status × TreeState :=
  let r := createDirectory s parts mode recursive now batchOracle cursorOracle
  if r.1 = Status.alreadyExists then (Status.ok, r.2.1) else (r.1, r.2.1)

/-- Read-only walk deciding whether the terminal path component exists: every
proper prefix resolves through in-memory directories, and the final component
is a child (of any kind) of the last directory. -/
def terminalFound (dirs : List (Nat × Inode)) :
    List (List Nat) → Nat → Bool
  | [], _ => false
  | [part], current =>
      match lookupA dirs current with
      | none => false
      | some node => node.is_directory && containsA node.children part
  | part :: rest, current =>
      match lookupA dirs current with
      | none => false
      | some node =>
          node.is_directory &&
            match lookupA node.children part with
            | some child => terminalFound dirs rest child
            | none => false

/-- Initial two-tier tree state holding only the root directory, as set up by
the InodeTree constructor followed by Recover on an empty store. -/
def rootInode : Inode :=
  { id := kRootId, parent_id := 0, name := [], is_directory := true
    mode := 0o755 }

def initialTree : TreeState :=
  { dirInodes := [(kRootId, rootInode)], nextId := 2, allocEnd := 2
    store := { inodes := [(kRootId, { rootInode with children := [] })] } }

/-- Concrete inode for the C3 counterexample: its owner string is 256 bytes
long, one byte past the dictionary entry limit. -/
def c3Inode : Inode :=
  { id := 7, owner := List.replicate 256 97 }

/-- Concrete inode used as the witness input for the amended C3 theorem. -/
def c3wInode : Inode :=
  { id := 9, parent_id := 1, name := [102, 46, 98, 105, 110], size := 123
    mode := 0o644, owner := [117, 115, 101, 114], group := [103, 114, 112]
    creation_time_ms := 5, modification_time_ms := 6, is_complete := true }

/-- Concrete two-tier state with one file child of the root, the result of a
successful create of the file whose name byte is 102. -/
def c2wState : TreeState :=
  (createFile initialTree [[102]] 420 7 true true).2.1

-- ─── Allocator cursor persistence (C8) ─────────────────────────────────────

/-- Allocator-relevant slice of the tree state: next_id, alloc_end_, and the
value stored under the persisted-cursor sentinel key (none before the first
successful cursor commit). -/
structure AllocState where
  nextId : Nat := 2
  allocEnd : Nat := 2
  persisted : Option Nat := none
  deriving DecidableEq, Repr

/-- InodeTree::AllocateId restricted to the allocator state; the best-effort
cursor commit succeeds iff `ok` and its status is discarded either way. -/
def allocStep (s : AllocState) (ok : Bool) : Nat × AllocState :=
  let id := s.nextId
  let s1 := { s with nextId := s.nextId + 1 }
  if s1.allocEnd ≤ id then
    let allocEnd := id + kIdAllocBatchSize
    let p' := if ok then some allocEnd else s1.persisted
    (id, { s1 with allocEnd := allocEnd, persisted := p' })
  else (id, s1)

/-- Step ③ of InodeTree::Recover: a positive persisted cursor reinitializes
next_id and alloc_end_.  The fallback scan of directory ids (taken when no
cursor was ever persisted) is modelled as a no-op, which matches the fallback
on a store holding no directories beyond the root. -/
def allocRestart (s : AllocState) : AllocState :=
  match s.persisted with
  | some c =>
      if 0 < c then { nextId := c, allocEnd := c, persisted := some c }
      else s
  | none => s

inductive AllocEv where
  | alloc (ok : Bool)
  | restart
  deriving DecidableEq, Repr

/-- Run a sequence of allocations and restarts from `s`, collecting the ids
handed out. -/
def allocRun (s : AllocState) : List AllocEv → List Nat × AllocState
  | [] => ([], s)
  | AllocEv.alloc ok :: rest =>
      let r := allocStep s ok
      let tail := allocRun r.2 rest
      (r.1 :: tail.1, tail.2)
  | AllocEv.restart :: rest => allocRun (allocRestart s) rest

def allocInit : AllocState := {}

/-- Every allocation event in the trace has a succeeding cursor commit. -/
def allOkEvs (evs : List AllocEv) : Prop :=
  ∀ e ∈ evs, e ≠ AllocEv.alloc false

instance (evs : List AllocEv) : Decidable (allOkEvs evs) := by
  unfold allOkEvs
  infer_instance

/-- Persisted-cursor reading: zero before anything was persisted. -/
def cursOf (s : AllocState) : Nat := s.persisted.getD 0

/-- Event list for the C8 counterexample: ids 2..1001 alled out with the
cursor persisted as 1002 at the first allocation; the allocation of id 1002
advances the cursor batch but its best-effort commit fails; after a restart
from the stale cursor, id 1002 is handed out a second time. -/
def c8Trace : List AllocEv :=
  List.replicate 1000 (AllocEv.alloc true) ++
    [AllocEv.alloc false, AllocEv.restart, AllocEv.alloc true]

-- ─── Worker registry and selection (master/worker_manager.cpp, C9) ─────────

/-- Worker state from master/worker_manager.h; the address and heartbeat
fields play no part in write selection and are elided. -/
structure WorkerState where
  id : Nat := 0
  capacity_bytes : Nat := 0
  used_bytes : Nat := 0
  alive : Bool := true
  deriving DecidableEq, Repr

/-- Wrapping 64-bit subtraction, the value of `capacity_bytes - used_bytes`
on uint64 operands. -/
def usub64 (a b : Nat) : Nat := (a % U64 + (U64 - b % U64)) % U64

def workerAvail (w : WorkerState) : Nat :=
  usub64 w.capacity_bytes w.used_bytes

/-- Loop body of WorkerManager::SelectWorkerForWrite: skip dead workers,
keep the strictly larger available-byte count. -/
def selectFoldStep (acc : Nat × Nat) (w : WorkerState) : Nat × Nat :=
  if !w.alive then acc
  else if acc.2 < workerAvail w then (w.id, workerAvail w) else acc

/-- WorkerManager::SelectWorkerForWrite: scan for the alive worker with the
most available bytes.  `best_id` starts at the invalid sentinel 0 and
`best_avail` at zero with a strict comparison, so a worker whose available
bytes are zero is never selected. -/
def selectWorkerForWrite (workers : List WorkerState) : Status × Nat :=
  let best := workers.foldl selectFoldStep (0, 0)
  if best.1 = 0 then (Status.unavailable, 0) else (Status.ok, best.1)

/-- FileSystemMaster::CreateFile: create the inode through the tree, then
pick a worker; a failed selection is replaced by the invalid sentinel 0 and
the call still returns OK.  The last component is the returned worker id. -/
def masterCreateFile (s : TreeState) (parts : List (List Nat))
    (mode now : Nat) (cursorOk commitOk : Bool)
    (workers : List WorkerState) : Status × TreeState × Option Nat × Nat :=
  match createFile s parts mode now cursorOk commitOk with
  | (Status.ok, s', oid) =>
      match selectWorkerForWrite workers with
      | (Status.ok, wid) => (Status.ok, s', oid, wid)
      | _ => (Status.ok, s', oid, 0)
  | (st, s', oid) => (st, s', oid, 0)

-- ─── Worker block cache engine (worker/, C4–C7) ────────────────────────────

inductive TierType where
  | kMemory
  | kSSD
  | kHDD
  deriving DecidableEq, Repr

/-- Enum value of the tier type; smaller is faster. -/
def tierRank : TierType → Nat
  | .kMemory => 0
  | .kSSD => 1
  | .kHDD => 2

/-- One StorageTier: its type, capacity bound, used-byte counter, and block
table mapping block id to the allocated size (the handle's capacity).  The
actual byte storage (heap vs one file per block) is irrelevant here. -/
structure Tier where
  type : TierType
  capacity : Nat
  blocks : List (Nat × Nat) := []
  used : Nat := 0
  deriving DecidableEq, Repr

/-- StorageTier::GetAvailableBytes: `capacity_ - used_bytes_`. -/
def tierAvailable (t : Tier) : Nat := t.capacity - t.used

/-- StorageTier::AllocateBlock; the underlying malloc / block-file creation
is assumed to succeed. -/
def tierAllocate (t : Tier) (id size : Nat) : Status × Tier :=
  if containsA t.blocks id then (Status.alreadyExists, t)
  else if t.capacity < t.used + size then (Status.resourceExhausted, t)
  else (Status.ok, { t with blocks := insertA t.blocks id size
                            used := t.used + size })

/-- StorageTier::RemoveBlock. -/
def tierRemove (t : Tier) (id : Nat) : Status × Tier :=
  match lookupA t.blocks id with
  | none => (Status.notFound, t)
  | some sz => (Status.ok, { t with blocks := eraseA t.blocks id
                                    used := t.used - sz })

/-- Persistent per-block metadata (worker/meta_store.h BlockMeta). -/
structure BlockMeta where
  block_id : Nat := 0
  length : Nat := 0
  tier : TierType := TierType.kMemory
  create_time_ms : Nat := 0
  last_access_time_ms : Nat := 0
  access_count : Nat := 0
  deriving DecidableEq, Repr

/-- LRU policy state: `order_` with the front as the victim; the iterator
map `map_` mirrors the list and is folded into it. -/
structure LRUState where
  order : List Nat := []
  deriving DecidableEq, Repr

/-- LRUPolicy::OnAccess: move a present id to the tail. -/
def lruOnAccess (p : LRUState) (id : Nat) : LRUState :=
  if p.order.contains id then { order := p.order.erase id ++ [id] } else p

/-- LRUPolicy::OnInsert: drop any existing position, then push to the tail. -/
def lruOnInsert (p : LRUState) (id : Nat) : LRUState :=
  { order := p.order.erase id ++ [id] }

/-- LRUPolicy::OnRemove. -/
def lruOnRemove (p : LRUState) (id : Nat) : LRUState :=
  if p.order.contains id then { order := p.order.erase id } else p

/-- LRUPolicy::Evict: pop the front; 0 (kInvalidBlockId) when empty. -/
def lruEvict (p : LRUState) : Nat × LRUState :=
  match p.order with
  | [] => (0, p)
  | v :: rest => (v, { order := rest })

def lruSize (p : LRUState) : Nat := p.order.length

/-- CacheManager state under the LRU policy (the configuration the claims
exercise): the policy, the per-id byte sizes, and the aggregate counter. -/
structure CMState where
  lru : LRUState := {}
  blockSizes : List (Nat × Nat) := []
  totalCachedBytes : Nat := 0
  deriving DecidableEq, Repr

/-- CacheManager::OnBlockInsert. -/
def cmOnInsert (c : CMState) (id size : Nat) : CMState :=
  { lru := lruOnInsert c.lru id
    blockSizes := insertA c.blockSizes id size
    totalCachedBytes := c.totalCachedBytes + size }

/-- CacheManager::OnBlockAccess. -/
def cmOnAccess (c : CMState) (id : Nat) : CMState :=
  { c with lru := lruOnAccess c.lru id }

/-- CacheManager::OnBlockRemove. -/
def cmOnRemove (c : CMState) (id : Nat) : CMState :=
  let c1 := { c with lru := lruOnRemove c.lru id }
  match lookupA c1.blockSizes id with
  | some sz =>
      { c1 with blockSizes := eraseA c1.blockSizes id
                totalCachedBytes := c1.totalCachedBytes - sz }
  | none => c1

/-- Loop of CacheManager::GetEvictionCandidates: while the freed sum is
short of `bytesNeeded` and the policy is non-empty, pop a victim; stop on
the invalid id; account its recorded size if any; collect it.  The loop
recurses structurally on the policy order list, threading the freed
counter, the size table, and the aggregate byte counter. -/
def evictLoop (bytesNeeded : Nat) :
    Nat → List (Nat × Nat) → Nat → List Nat → List Nat × CMState
  | freed, sizes, total, order =>
      if bytesNeeded ≤ freed then
        ([], { lru := { order := order }, blockSizes := sizes
               totalCachedBytes := total })
      else
        match order with
        | [] =>
            ([], { lru := { order := [] }, blockSizes := sizes
                   totalCachedBytes := total })
        | v :: rest =>
            if v = 0 then
              ([], { lru := { order := rest }, blockSizes := sizes
                     totalCachedBytes := total })
            else
              match lookupA sizes v with
              | some sz =>
                  let r := evictLoop bytesNeeded (freed + sz)
                    (eraseA sizes v) (total - sz) rest
                  (v :: r.1, r.2)
              | none =>
                  let r := evictLoop bytesNeeded freed sizes total rest
                  (v :: r.1, r.2)

/-- CacheManager::GetEvictionCandidates. -/
def getEvictionCandidates (c : CMState) (bytesNeeded : Nat) :
    List Nat × CMState :=
  evictLoop bytesNeeded 0 c.blockSizes c.totalCachedBytes c.lru.order

/-- BlockStore options: the auto-promotion threshold and the watermarks.
The C++ watermarks are the doubles 0.95 / 0.80; the model carries them as
exact percentages, which agrees with the double comparison except within a
rounding error of the boundary. -/
structure BSOptions where
  autoPromoteAccessThreshold : Nat := 3
  highWatermarkPct : Nat := 95
  lowWatermarkPct : Nat := 80
  deriving DecidableEq, Repr

/-- BlockStore state: the tier list (sorted fastest first by the
constructor), the cache manager, the metadata store contents (PutBlockMeta
is infallible in the in-memory MetaStore), and block_tier_map_. -/
structure BSState where
  opts : BSOptions := {}
  tiers : List Tier := []
  cm : CMState := {}
  meta : List (Nat × BlockMeta) := []
  blockTierMap : List (Nat × TierType) := []
  deriving DecidableEq, Repr

/-- BlockStore::FindTier: first tier of the given type. -/
def findTier (ts : List Tier) (ty : TierType) : Option Tier :=
  match ts with
  | [] => none
  | t :: rest => if t.type = ty then some t else findTier rest ty

/-- Write back through the FindTier pointer: replace the first tier of the
given type. -/
def updateTier (ts : List Tier) (ty : TierType) (t' : Tier) : List Tier :=
  match ts with
  | [] => []
  | t :: rest => if t.type = ty then t' :: rest else t :: updateTier rest ty t'

/-- Tier recorded for a block in block_tier_map_. -/
def tierOf (s : BSState) (id : Nat) : Option TierType :=
  lookupA s.blockTierMap id

/-- Per-candidate body of BlockStore::EvictBlocks: a candidate is removed
only when the block-tier map places it in the target tier. -/
def evictBlocksStep (tier : TierType) (acc : List Nat × BSState) (bid : Nat) :
    List Nat × BSState :=
  match lookupA acc.2.blockTierMap bid with
  | some ty =>
      if ty = tier then
        match findTier acc.2.tiers ty with
        | some t =>
            (acc.1 ++ [bid],
              { acc.2 with
                tiers := updateTier acc.2.tiers ty (tierRemove t bid).2
                meta := eraseA acc.2.meta bid
                blockTierMap := eraseA acc.2.blockTierMap bid })
        | none => acc
      else acc
  | none => acc

/-- BlockStore::EvictBlocks: draw candidates from the cache manager, then
remove each candidate that the block-tier map places in the target tier. -/
def evictBlocks (s : BSState) (tier : TierType) (bytesNeeded : Nat) :
    List Nat × BSState :=
  let r := getEvictionCandidates s.cm bytesNeeded
  r.1.foldl (evictBlocksStep tier) ([], { s with cm := r.2 })

/-- BlockStore::MaybeAutoEvict: when used/capacity exceeds the high
watermark, evict down to the low watermark. -/
def maybeAutoEvict (s : BSState) (tier : TierType) : BSState :=
  match findTier s.tiers tier with
  | none => s
  | some t =>
      if t.capacity = 0 then s
      else if t.used * 100 ≤ s.opts.highWatermarkPct * t.capacity then s
      else
        let targetUsed := t.capacity * s.opts.lowWatermarkPct / 100
        let toFree := t.used - targetUsed
        if toFree = 0 then s
        else (evictBlocks s tier toFree).2

/-- Admission step of BlockStore::CreateBlock: pick the fastest tier with
space; otherwise evict on the fastest tier and retry it.  Returns the target
index into the tier list and the (possibly evicted-from) state; `none`
stands for the ResourceExhausted exit.  A worker always has at least one
tier (`tiers_.front()` would be undefined otherwise). -/
def createBlockAdmit (s : BSState) (size : Nat) : Option Nat × BSState :=
  match s.tiers.findIdx? (fun t => size ≤ tierAvailable t) with
  | some i => (some i, s)
  | none =>
      match s.tiers with
      | [] => (none, s)
      | t0 :: _ =>
          let s1 := (evictBlocks s t0.type size).2
          match s1.tiers with
          | [] => (none, s1)
          | t0' :: _ =>
              if tierAvailable t0' < size then (none, s1) else (some 0, s1)

/-- Allocation-and-bookkeeping tail of BlockStore::CreateBlock: allocate in
the target tier, write the metadata, record the tier, notify the cache
manager, then check the watermark. -/
def createBlockAt (s : BSState) (i blockId size now : Nat) :
    Status × BSState :=
  match s.tiers[i]? with
  | none => (Status.internal, s)
  | some t =>
      match tierAllocate t blockId size with
      | (Status.ok, t') =>
          let meta : BlockMeta :=
            { block_id := blockId, length := size, tier := t.type
              create_time_ms := now, last_access_time_ms := now }
          let s1 := { s with tiers := s.tiers.set i t'
                             meta := insertA s.meta blockId meta
                             blockTierMap :=
                               insertA s.blockTierMap blockId t.type
                             cm := cmOnInsert s.cm blockId size }
          (Status.ok, maybeAutoEvict s1 t.type)
      | (st, _) => (st, s)

/-- BlockStore::CreateBlock. -/
def createBlock (s : BSState) (blockId size now : Nat) : Status × BSState :=
  match createBlockAdmit s size with
  | (none, s1) => (Status.resourceExhausted, s1)
  | (some i, s1) => createBlockAt s1 i blockId size now

/-- BlockStore::PromoteBlock: export from the source tier, import into the
target, remove from the source, update metadata and the tier map.  The data
copy itself carries no information the claims need. -/
def promoteBlock (s : BSState) (id : Nat) (target : TierType) :
    Status × BSState :=
  match lookupA s.blockTierMap id with
  | none => (Status.notFound, s)
  | some srcTy =>
      match findTier s.tiers srcTy with
      | none => (Status.notFound, s)
      | some src =>
          if src.type = target then (Status.ok, s)
          else
            match findTier s.tiers target with
            | none => (Status.notFound, s)
            | some dst =>
                match lookupA src.blocks id with
                | none => (Status.notFound, s)
                | some sz =>
                    match tierAllocate dst id sz with
                    | (Status.ok, dst') =>
                        let s1 := { s with
                          tiers := updateTier s.tiers target dst' }
                        let s2 := match findTier s1.tiers srcTy with
                          | some src2 =>
                              let srcT' := (tierRemove src2 id).2
                              { s1 with tiers :=
                                  updateTier s1.tiers srcTy srcT' }
                          | none => s1
                        let s3 := match lookupA s2.meta id with
                          | some m =>
                              let m' := { m with tier := target }
                              { s2 with meta := insertA s2.meta id m' }
                          | none => s2
                        let map' := insertA s3.blockTierMap id target
                        (Status.ok, { s3 with blockTierMap := map' })
                    | (st, _) => (st, s)

/-- BlockStore::MaybeAutoPromote: after a read whose access count reached
the threshold, promote one tier up if the faster tier exists and has room. -/
def maybeAutoPromote (s : BSState) (id : Nat) (meta : BlockMeta) : BSState :=
  if s.opts.autoPromoteAccessThreshold = 0 then s
  else if meta.access_count < s.opts.autoPromoteAccessThreshold then s
  else
    match lookupA s.blockTierMap id with
    | none => s
    | some currentTier =>
        match (match currentTier with
          | TierType.kHDD => some TierType.kSSD
          | TierType.kSSD => some TierType.kMemory
          | TierType.kMemory => none) with
        | none => s
        | some target =>
            match findTier s.tiers target with
            | none => s
            | some dst =>
                if tierAvailable dst < meta.length then s
                else (promoteBlock s id target).2

/-- Iterate auto-promotion attempts for one block over a list of metadata
snapshots (one per triggering read). -/
def autoPromoteSeq (s : BSState) (id : Nat) : List BlockMeta → BSState
  | [] => s
  | m :: ms => autoPromoteSeq (maybeAutoPromote s id m) id ms

/-- Number of attempts in the sequence that actually moved the block. -/
def tierChanges (s : BSState) (id : Nat) : List BlockMeta → Nat
  | [] => 0
  | m :: ms =>
      let s' := maybeAutoPromote s id m
      (if tierOf s' id = tierOf s id then 0 else 1) + tierChanges s' id ms

/-- Number of tiers whose block table holds the given id. -/
def countTiersWith (ts : List Tier) (id : Nat) : Nat :=
  (ts.filter (fun t => containsA t.blocks id)).length

/-- Sum of the recorded sizes of `ids` in a size table. -/
def sumSizes (m : List (Nat × Nat)) (ids : List Nat) : Nat :=
  ids.foldl (fun a i => a + (lookupA m i).getD 0) 0

/-- Total used bytes across a tier list. -/
def sumUsed (ts : List Tier) : Nat := ts.foldl (fun a t => a + t.used) 0

/-- Cache-manager state of seed test 4 (spec §8): blocks 1, 2, 3 of 100
bytes each inserted in order, then block 1 accessed. -/
def c6State : CMState :=
  cmOnAccess (cmOnInsert (cmOnInsert (cmOnInsert {} 1 100) 2 100) 3 100) 1

/-- Cache-manager state with the sizes of the repository's own
CacheManagerTest.LRU_EvictionOrder test: 100, 200, 300 bytes. -/
def c6RepoState : CMState :=
  cmOnAccess (cmOnInsert (cmOnInsert (cmOnInsert {} 1 100) 2 200) 3 300) 1

/-- Block-store state for the C4 counterexample: a single memory tier of
100 bytes. -/
def c4State : BSState :=
  { tiers := [{ type := TierType.kMemory, capacity := 100 }] }

/-- Block-store state for the C5 counterexample: block 1 (100 B) and block 3
(100 B) live in memory, block 2 (50 B) on the SSD; LRU order is 1, 2, 3. -/
def c5State : BSState :=
  { tiers := [
      { type := TierType.kMemory, capacity := 1000
        blocks := [(1, 100), (3, 100)], used := 200 },
      { type := TierType.kSSD, capacity := 1000
        blocks := [(2, 50)], used := 50 }]
    cm := { lru := { order := [1, 2, 3] }
            blockSizes := [(1, 100), (2, 50), (3, 100)]
            totalCachedBytes := 250 }
    blockTierMap := [(1, TierType.kMemory), (2, TierType.kSSD),
      (3, TierType.kMemory)] }

/-- Block-store state for the C7 counterexample: block 1 (10 B) resides in
the memory tier and an HDD tier is configured. -/
def c7State : BSState :=
  { tiers := [
      { type := TierType.kMemory, capacity := 100
        blocks := [(1, 10)], used := 10 },
      { type := TierType.kHDD, capacity := 100 }]
    cm := { lru := { order := [1] }, blockSizes := [(1, 10)]
            totalCachedBytes := 10 }
    meta := [(1, { block_id := 1, length := 10
                   tier := TierType.kMemory })]
    blockTierMap := [(1, TierType.kMemory)] }

end AnyCache

namespace AnyCache

theorem makeBlockId_eq (I k : Nat) (hI : I < 2 ^ 40) (hk : k < 2 ^ 24) :
    MakeBlockId I k = I * 2 ^ 24 + k := by
  have hshift : I <<< 24 = I * 2 ^ 24 := Nat.shiftLeft_eq ..
  have hlt : I * 2 ^ 24 < 2 ^ 64 := by
    calc I * 2 ^ 24 < 2 ^ 40 * 2 ^ 24 :=
          mul_lt_mul_of_pos_right hI (by norm_num)
      _ = 2 ^ 64 := by norm_num
  have hmask : k &&& 2 ^ 24 - 1 = k := Nat.and_pow_two_sub_one_of_lt_two_pow hk
  simp only [MakeBlockId, U64, kBlockIndexBits, kBlockIndexMask]
  rw [hshift, Nat.mod_eq_of_lt hlt, hmask, Nat.mul_comm I (2 ^ 24),
    ← Nat.mul_add_lt_is_or hk, Nat.mul_comm]

/-- C1: Composite-id bijection: for every inode id `I` with `1 ≤ I < 2^40`
and block index `k < 2^24`, `GetInodeId (MakeBlockId I k) = I` and
`GetBlockIndex (MakeBlockId I k) = k`. -/
theorem claim_C1_blockId_bijection (I k : Nat) (hI1 : 1 ≤ I)
    (hI : I < 2 ^ 40) (hk : k < 2 ^ 24) :
    GetInodeId (MakeBlockId I k) = I ∧ GetBlockIndex (MakeBlockId I k) = k := by
  rw [makeBlockId_eq I k hI hk]
  constructor
  · simp only [GetInodeId, kBlockIndexBits]
    rw [Nat.shiftRight_eq_div_pow, Nat.mul_comm I (2 ^ 24),
      Nat.mul_add_div (by norm_num), Nat.div_eq_of_lt hk, Nat.add_zero]
  · simp only [GetBlockIndex, kBlockIndexMask, kBlockIndexBits]
    rw [Nat.and_pow_two_sub_one_eq_mod]
    omega

/-- Witness for C1 at the concrete pair (42, 3). -/
theorem claim_C1_blockId_bijection_witness :
    GetInodeId (MakeBlockId 42 3) = 42 ∧ GetBlockIndex (MakeBlockId 42 3) = 3 :=
  claim_C1_blockId_bijection 42 3 (by decide) (by decide) (by decide)

-- ─── Serialization round-trip lemmas (C3) ──────────────────────────────────

theorem encodeLE_length (w v : Nat) : (encodeLE w v).length = w := by
  induction w generalizing v with
  | zero => rfl
  | succ w ih => simp [encodeLE, ih]

theorem decodeLE_encodeLE (w v : Nat) (h : v < 256 ^ w) :
    decodeLE (encodeLE w v) = v := by
  induction w generalizing v with
  | zero => simp [encodeLE, decodeLE]; omega
  | succ w ih =>
      have hdiv : v / 256 < 256 ^ w := by
        rw [Nat.div_lt_iff_lt_mul (by norm_num)]
        calc v < 256 ^ (w + 1) := h
          _ = 256 ^ w * 256 := by rw [Nat.pow_succ]
      simp only [encodeLE, decodeLE, ih (v / 256) hdiv]
      omega

theorem idxOf_some_getD (l : List (List Nat)) (s : List Nat) (i : Nat)
    (h : idxOf l s = some i) : i < l.length ∧ l.getD i [] = s := by
  induction l generalizing i with
  | nil => simp [idxOf] at h
  | cons x rest ih =>
      by_cases hx : x = s
      · simp [idxOf, hx] at h
        subst h
        simp [hx]
      · simp only [idxOf, if_neg hx] at h
        cases hrec : idxOf rest s with
        | none => rw [hrec] at h; simp at h
        | some j =>
            rw [hrec] at h
            simp at h
            subst h
            obtain ⟨hj, hg⟩ := ih j hrec
            refine ⟨by simp; omega, ?_⟩
            simpa using hg

theorem idxOf_none_not_mem (l : List (List Nat)) (s : List Nat)
    (h : idxOf l s = none) : s ∉ l := by
  induction l with
  | nil => simp
  | cons x rest ih =>
      by_cases hx : x = s
      · simp [idxOf, hx] at h
      · simp only [idxOf, if_neg hx] at h
        cases hrec : idxOf rest s with
        | none => simp [ih hrec, Ne.symm hx]
        | some j => rw [hrec] at h; simp at h

theorem deserializeEntries_serializeEntries (l : List (List Nat)) :
    deserializeEntries l.length (serializeEntries l) =
      l.map (fun s => s.take 255) := by
  induction l with
  | nil => rfl
  | cons s rest ih =>
      have hlen : (s.take 255).length = min s.length 255 := by
        simp [List.length_take, Nat.min_comm]
      have hmin : min (min s.length 255)
          (s.take 255 ++ serializeEntries rest).length = min s.length 255 := by
        simp only [List.length_append, hlen]
        omega
      simp only [serializeEntries, List.length_cons, deserializeEntries,
        List.append_eq, hmin, List.take_left' hlen, List.drop_left' hlen, ih,
        List.map_cons]

theorem reload_list (l : List (List Nat)) (h : l.length ≤ 255) :
    deserializeList (serializeList l) = l.map (fun s => s.take 255) := by
  have hcount : min l.length 255 = l.length := by omega
  simp only [serializeList, deserializeList, hcount,
    deserializeEntries_serializeEntries]

theorem getOrAdd_lookup (s : List Nat) (l : List (List Nat))
    (hl : l.length ≤ 255)
    (hs : s = [] ∨ (s.length ≤ 255 ∧ (s ∈ l ∨ l.length < 255))) :
    lookupDict (getOrAdd s l).1
        (deserializeList (serializeList (getOrAdd s l).2)) = s ∧
      (getOrAdd s l).2.length ≤ 255 := by
  by_cases hemp : s = []
  · subst hemp
    simp [getOrAdd, lookupDict, hl]
  · rcases hs with hs | ⟨hlen, hmem⟩
    · exact absurd hs hemp
    cases hidx : idxOf l s with
    | some i =>
        obtain ⟨hi, hget⟩ := idxOf_some_getD l s i hidx
        simp only [getOrAdd, if_neg hemp, hidx]
        refine ⟨?_, hl⟩
        rw [reload_list l hl]
        simp only [lookupDict, List.length_map]
        have hcond : ¬(i + 1 = 0 ∨ l.length < i + 1) := by omega
        rw [if_neg hcond, Nat.add_sub_cancel]
        have hgetElem : l[i]? = some s := by
          rw [List.getD_eq_getElem?_getD, List.getElem?_eq_getElem hi] at hget
          rw [List.getElem?_eq_getElem hi]
          simpa using hget
        rw [List.getD_eq_getElem?_getD, List.getElem?_map, hgetElem]
        simp only [Option.map_some', Option.getD_some]
        exact List.take_of_length_le hlen
    | none =>
        have hnotmem := idxOf_none_not_mem l s hidx
        have hlt : l.length < 255 := by tauto
        simp only [getOrAdd, if_neg hemp, hidx,
          if_neg (by omega : ¬255 ≤ l.length)]
        have hl' : (l ++ [s]).length ≤ 255 := by simp; omega
        refine ⟨?_, hl'⟩
        rw [reload_list _ hl']
        simp only [lookupDict, List.length_map, List.length_append,
          List.length_cons, List.length_nil]
        rw [if_neg (by simp), Nat.add_sub_cancel]
        rw [List.getD_eq_getElem?_getD, List.getElem?_map,
          List.getElem?_append_right (Nat.le_refl _)]
        simp only [Nat.sub_self, List.getElem?_cons_zero, Option.map_some',
          Option.getD_some]
        exact List.take_of_length_le hlen

theorem serialize_fst (inode : Inode) (dict : OwnerGroupDict) :
    (SerializeInodeEntry inode dict).1 =
      encodeLE 8 inode.parent_id ++ (encodeLE 8 inode.size ++
        (encodeLE 8 inode.block_size ++ (encodeLE 8 inode.creation_time_ms ++
          (encodeLE 8 inode.modification_time_ms ++ (encodeLE 4 inode.mode ++
            (((if inode.is_directory then kInodeEntryFlagDirectory else 0) |||
                (if inode.is_complete then kInodeEntryFlagComplete else 0)) ::
              (getOrAdd inode.owner dict.owners).1 ::
              (getOrAdd inode.group dict.groups).1 :: 0 ::
              inode.name)))))) := by
  simp [SerializeInodeEntry, List.append_assoc]

theorem serialize_snd (inode : Inode) (dict : OwnerGroupDict) :
    (SerializeInodeEntry inode dict).2 =
      { owners := (getOrAdd inode.owner dict.owners).2
        groups := (getOrAdd inode.group dict.groups).2 } := by
  simp [SerializeInodeEntry]

theorem flags_bits (d c : Bool) :
    ((((if d then kInodeEntryFlagDirectory else 0) |||
          (if c then kInodeEntryFlagComplete else 0)) &&&
        kInodeEntryFlagDirectory != 0) = d) ∧
      ((((if d then kInodeEntryFlagDirectory else 0) |||
          (if c then kInodeEntryFlagComplete else 0)) &&&
        kInodeEntryFlagComplete != 0) = c) := by
  cases d <;> cases c <;> decide

/-- C3 (amended): persistence round trip: serializing an inode via the store
and deserializing it by id after a cold restart (with the persisted
dictionaries reloaded) returns the same value for every field except a
directory's children map, provided the 64-bit fields are in range, the
dictionaries hold at most 255 ids, and each of owner/group is either empty or
at most 255 bytes long and either already known to its dictionary or
admitted while fewer than 255 ids are taken.  Without the owner/group side
conditions the round trip truncates (see the counterexample). -/
theorem claim_C3_roundtrip (inode : Inode) (dict : OwnerGroupDict)
    (hp : inode.parent_id < U64) (hsz : inode.size < U64)
    (hb : inode.block_size < U64) (hct : inode.creation_time_ms < U64)
    (hmt : inode.modification_time_ms < U64) (hmode : inode.mode < 2 ^ 32)
    (howners : dict.owners.length ≤ 255) (hgroups : dict.groups.length ≤ 255)
    (hown : inode.owner = [] ∨ (inode.owner.length ≤ 255 ∧
      (inode.owner ∈ dict.owners ∨ dict.owners.length < 255)))
    (hgrp : inode.group = [] ∨ (inode.group.length ≤ 255 ∧
      (inode.group ∈ dict.groups ∨ dict.groups.length < 255))) :
    DeserializeInodeEntry inode.id (SerializeInodeEntry inode dict).1
        (reloadDict (SerializeInodeEntry inode dict).2) =
      { inode with children := [] } := by
  have hu : U64 = 256 ^ 8 := by norm_num [U64]
  have h32 : (2 : Nat) ^ 32 = 256 ^ 4 := by norm_num
  obtain ⟨hoL, _⟩ := getOrAdd_lookup inode.owner dict.owners howners hown
  obtain ⟨hgL, _⟩ := getOrAdd_lookup inode.group dict.groups hgroups hgrp
  have hdata := serialize_fst inode dict
  set data := (SerializeInodeEntry inode dict).1 with hdatadef
  set fl := (if inode.is_directory then kInodeEntryFlagDirectory else 0) |||
    (if inode.is_complete then kInodeEntryFlagComplete else 0) with hfl
  set o1 := (getOrAdd inode.owner dict.owners).1 with ho1
  set g1 := (getOrAdd inode.group dict.groups).1 with hg1
  have d8 : data.drop 8 = encodeLE 8 inode.size ++
      (encodeLE 8 inode.block_size ++ (encodeLE 8 inode.creation_time_ms ++
        (encodeLE 8 inode.modification_time_ms ++ (encodeLE 4 inode.mode ++
          (fl :: o1 :: g1 :: 0 :: inode.name))))) := by
    rw [hdata]; exact List.drop_left' (encodeLE_length 8 _)
  have d16 : data.drop 16 = encodeLE 8 inode.block_size ++
      (encodeLE 8 inode.creation_time_ms ++
        (encodeLE 8 inode.modification_time_ms ++ (encodeLE 4 inode.mode ++
          (fl :: o1 :: g1 :: 0 :: inode.name)))) := by
    rw [← List.drop_drop 8 8 data, d8]
    exact List.drop_left' (encodeLE_length 8 _)
  have d24 : data.drop 24 = encodeLE 8 inode.creation_time_ms ++
      (encodeLE 8 inode.modification_time_ms ++ (encodeLE 4 inode.mode ++
        (fl :: o1 :: g1 :: 0 :: inode.name))) := by
    rw [← List.drop_drop 8 16 data, d16]
    exact List.drop_left' (encodeLE_length 8 _)
  have d32 : data.drop 32 = encodeLE 8 inode.modification_time_ms ++
      (encodeLE 4 inode.mode ++ (fl :: o1 :: g1 :: 0 :: inode.name)) := by
    rw [← List.drop_drop 8 24 data, d24]
    exact List.drop_left' (encodeLE_length 8 _)
  have d40 : data.drop 40 = encodeLE 4 inode.mode ++
      (fl :: o1 :: g1 :: 0 :: inode.name) := by
    rw [← List.drop_drop 8 32 data, d32]
    exact List.drop_left' (encodeLE_length 8 _)
  have d44 : data.drop 44 = fl :: o1 :: g1 :: 0 :: inode.name := by
    rw [← List.drop_drop 4 40 data, d40]
    exact List.drop_left' (encodeLE_length 4 _)
  have d48 : data.drop 48 = inode.name := by
    rw [← List.drop_drop 4 44 data, d44]
    rfl
  have hlen : data.length = 48 + inode.name.length := by
    rw [hdata]
    simp [encodeLE_length]
    omega
  have hg44 : data.getD 44 0 = fl := by
    rw [List.getD_eq_getElem?_getD, ← Nat.add_zero 44, ← List.getElem?_drop,
      d44]
    rfl
  have hg45 : data.getD 45 0 = o1 := by
    rw [List.getD_eq_getElem?_getD, show (45 : Nat) = 44 + 1 from rfl,
      ← List.getElem?_drop, d44]
    rfl
  have hg46 : data.getD 46 0 = g1 := by
    rw [List.getD_eq_getElem?_getD, show (46 : Nat) = 44 + 2 from rfl,
      ← List.getElem?_drop, d44]
    rfl
  have ht8 : data.take 8 = encodeLE 8 inode.parent_id := by
    rw [hdata]; exact List.take_left' (encodeLE_length 8 _)
  have ht16 : (data.drop 8).take 8 = encodeLE 8 inode.size := by
    rw [d8]; exact List.take_left' (encodeLE_length 8 _)
  have ht24 : (data.drop 16).take 8 = encodeLE 8 inode.block_size := by
    rw [d16]; exact List.take_left' (encodeLE_length 8 _)
  have ht32 : (data.drop 24).take 8 = encodeLE 8 inode.creation_time_ms := by
    rw [d24]; exact List.take_left' (encodeLE_length 8 _)
  have ht40 : (data.drop 32).take 8 =
      encodeLE 8 inode.modification_time_ms := by
    rw [d32]; exact List.take_left' (encodeLE_length 8 _)
  have ht44 : (data.drop 40).take 4 = encodeLE 4 inode.mode := by
    rw [d40]; exact List.take_left' (encodeLE_length 4 _)
  simp only [DeserializeInodeEntry, if_neg (by omega : ¬data.length < 48)]
  rw [ht8, ht16, ht24, ht32, ht40, ht44, hg44, hg45, hg46, d48]
  rw [decodeLE_encodeLE 8 _ (hu ▸ hp), decodeLE_encodeLE 8 _ (hu ▸ hsz),
    decodeLE_encodeLE 8 _ (hu ▸ hb), decodeLE_encodeLE 8 _ (hu ▸ hct),
    decodeLE_encodeLE 8 _ (hu ▸ hmt), decodeLE_encodeLE 4 _ (h32 ▸ hmode)]
  rw [serialize_snd]
  simp only [reloadDict]
  rw [ho1, hoL, hg1, hgL, hfl,
    (flags_bits inode.is_directory inode.is_complete).1,
    (flags_bits inode.is_directory inode.is_complete).2]

set_option maxRecDepth 20000 in
/-- C3 counterexample: for the inode whose owner string is 256 bytes of 97,
serializing against an empty dictionary, reloading the persisted
dictionaries, and deserializing returns a truncated 255-byte owner, so the
round trip does not preserve every field. -/
theorem claim_C3_counterexample :
    (DeserializeInodeEntry 7 (SerializeInodeEntry c3Inode {}).1
        (reloadDict (SerializeInodeEntry c3Inode {}).2)).owner ≠
      c3Inode.owner := by
  decide

/-- Witness for C3 (amended) at a concrete inode and an empty dictionary. -/
theorem claim_C3_roundtrip_witness :
    DeserializeInodeEntry c3wInode.id (SerializeInodeEntry c3wInode {}).1
        (reloadDict (SerializeInodeEntry c3wInode {}).2) =
      { c3wInode with children := [] } :=
  claim_C3_roundtrip c3wInode {} (by decide) (by decide) (by decide)
    (by decide) (by decide) (by decide) (by decide) (by decide)
    (by decide) (by decide)

-- ─── Inode-tree commit-failure lemmas (C2, C10) ────────────────────────────

theorem lookupA_insertA_self {α β : Type} [DecidableEq α]
    (m : List (α × β)) (k : α) (v : β) :
    lookupA (insertA m k v) k = some v := by
  induction m with
  | nil => simp [insertA, lookupA]
  | cons hd tl ih =>
      obtain ⟨a, b⟩ := hd
      by_cases h : a = k
      · simp [insertA, lookupA, h]
      · simp [insertA, lookupA, h, ih]

theorem allocateId_dirInodes (s : TreeState) (ok : Bool) :
    (allocateId s ok).2.dirInodes = s.dirInodes := by
  simp only [allocateId]
  split <;> rfl

theorem createFile_commitFail (s : TreeState) (parts : List (List Nat))
    (mode now : Nat) (curOk : Bool) :
    (createFile s parts mode now curOk false).1 = Status.ioError →
    (createFile s parts mode now curOk false).2.1.dirInodes = s.dirInodes := by
  simp only [createFile]
  split
  · intro h; simp at h
  · split
    · intro h; simp at h
    · rename_i parentId heq
      by_cases hc : containsA s.dirInodes parentId
      · simp only [hc, if_true]
        split
        · intro h; simp at h
        · split
          · intro h; simp at h
          · simp only [commitBatch, if_neg (by decide : ¬(false = true))]
            intro h
            simp [allocateId_dirInodes]
      · rw [if_neg hc]
        intro h
        simp [lookupA_insertA_self] at h

theorem deleteCommit_fail (s : TreeState) (id : Nat) (isDir : Bool)
    (parentId : Nat) (targetName : List Nat) (recursive : Bool) :
    deleteCommit s id isDir parentId targetName recursive false =
      (Status.ioError, s) := by
  simp [deleteCommit, commitBatch]

theorem deleteOp_fail_state (s : TreeState) (parts : List (List Nat))
    (recursive : Bool) :
    (deleteOp s parts recursive false).2 = s := by
  simp only [deleteOp]
  split
  · rfl
  · split
    · split
      · split
        · rfl
        · rw [deleteCommit_fail]
      · split
        · rfl
        · rw [deleteCommit_fail]
    · rfl

theorem rename_commitFail (s : TreeState) (srcParts dstParts : List (List Nat)) :
    (rename s srcParts dstParts false).1 = Status.ioError →
    (rename s srcParts dstParts false).2.dirInodes = s.dirInodes := by
  simp only [rename]
  split
  · intro h; simp at h
  · split
    · split
      · intro h; simp at h
      · rename_i dstParentId heq
        by_cases hc : containsA s.dirInodes dstParentId
        · simp only [hc, if_true]
          split
          · intro h; simp at h
          · split
            · intro h; simp at h
            · split
              · intro h; simp at h
              · split
                · intro h; simp at h
                · simp only [commitBatch, if_neg (by decide : ¬(false = true))]
                  intro h
                  trivial
        · rw [if_neg hc]
          intro h
          simp [lookupA_insertA_self] at h
    · intro h; rfl

theorem completeFile_dirInodes (s : TreeState) (id size now : Nat)
    (ok : Bool) :
    (completeFile s id size now ok).2.dirInodes = s.dirInodes := by
  simp only [completeFile]
  split
  · split <;> rfl
  · split <;> rfl

theorem createDirGo_allFail (remaining : List (List Nat)) :
    ∀ (s : TreeState) (current : Nat) (recursive : Bool) (mode now : Nat)
      (curOracle : Nat → Bool) (created : Nat),
    (createDirGo s remaining current recursive mode now (fun _ => false)
        curOracle created).1 = Status.ioError →
    (createDirGo s remaining current recursive mode now (fun _ => false)
        curOracle created).2.1.dirInodes = s.dirInodes := by
  induction remaining with
  | nil =>
      intro s current recursive mode now curOracle created h
      simp [createDirGo] at h
  | cons part rest ih =>
      intro s current recursive mode now curOracle created
      simp only [createDirGo]
      by_cases hc : containsA s.dirInodes current
      · simp only [hc, if_true]
        split
        · intro h; simp at h
        · split
          · split
            · intro h; simp at h
            · intro h
              exact ih _ _ _ _ _ _ _ h
          · split
            · intro h; simp at h
            · simp only [commitBatch, if_neg (by decide : ¬(false = true))]
              intro h
              simp [allocateId_dirInodes]
      · rw [if_neg hc]
        intro h
        simp [lookupA_insertA_self] at h

theorem createDirectory_allFail (s : TreeState) (parts : List (List Nat))
    (mode : Nat) (recursive : Bool) (now : Nat) (curOracle : Nat → Bool) :
    (createDirectory s parts mode recursive now (fun _ => false)
        curOracle).1 = Status.ioError →
    (createDirectory s parts mode recursive now (fun _ => false)
        curOracle).2.1.dirInodes = s.dirInodes := by
  simp only [createDirectory]
  split
  · intro h; simp at h
  · exact createDirGo_allFail parts s kRootId recursive mode now curOracle 0

/-- C2 (amended): in two-tier mode a failed durable batch commit surfaces as
the commit's IOError status and leaves the directory map (and with it every
directory's children map) exactly as it was before the operation began, for
create_file, delete, rename, complete_file, and create_directory (with every
batch commit failing, so the failing batch is the first one attempted).  The
claim as stated over all listed operations is false: update_size mutates the
in-memory inode before committing when the id is resident in the directory
map, and a recursive create_directory whose later batch fails retains the
ancestors created by earlier successful batches (see the counterexample). -/
theorem claim_C2_commit_atomicity :
    (∀ (s : TreeState) (parts : List (List Nat)) (mode now : Nat)
        (curOk : Bool),
      (createFile s parts mode now curOk false).1 = Status.ioError →
      (createFile s parts mode now curOk false).2.1.dirInodes =
        s.dirInodes) ∧
    (∀ (s : TreeState) (parts : List (List Nat)) (recursive : Bool),
      (deleteOp s parts recursive false).1 = Status.ioError →
      (deleteOp s parts recursive false).2.dirInodes = s.dirInodes) ∧
    (∀ (s : TreeState) (srcParts dstParts : List (List Nat)),
      (rename s srcParts dstParts false).1 = Status.ioError →
      (rename s srcParts dstParts false).2.dirInodes = s.dirInodes) ∧
    (∀ (s : TreeState) (id size now : Nat),
      (completeFile s id size now false).1 = Status.ioError →
      (completeFile s id size now false).2.dirInodes = s.dirInodes) ∧
    (∀ (s : TreeState) (parts : List (List Nat)) (mode : Nat)
        (recursive : Bool) (now : Nat) (curOracle : Nat → Bool),
      (createDirectory s parts mode recursive now (fun _ => false)
          curOracle).1 = Status.ioError →
      (createDirectory s parts mode recursive now (fun _ => false)
          curOracle).2.1.dirInodes = s.dirInodes) :=
  ⟨fun s parts mode now curOk => createFile_commitFail s parts mode now curOk,
    fun s parts recursive _ => by rw [deleteOp_fail_state],
    fun s srcParts dstParts => rename_commitFail s srcParts dstParts,
    fun s id size now _ => completeFile_dirInodes s id size now false,
    fun s parts mode recursive now curOracle =>
      createDirectory_allFail s parts mode recursive now curOracle⟩

/-- Witness for C2 (amended): each listed operation run against a concrete
state with a failing commit leaves the directory map untouched. -/
theorem claim_C2_commit_atomicity_witness :
    ((createFile c2wState [[103]] 420 9 true false).2.1.dirInodes =
      c2wState.dirInodes) ∧
    ((deleteOp c2wState [[102]] false false).2.dirInodes =
      c2wState.dirInodes) ∧
    ((rename c2wState [[102]] [[104]] false).2.dirInodes =
      c2wState.dirInodes) ∧
    ((completeFile c2wState 2 55 9 false).2.dirInodes =
      c2wState.dirInodes) ∧
    ((createDirectory c2wState [[100]] 493 false 9 (fun _ => false)
        (fun _ => true)).2.1.dirInodes = c2wState.dirInodes) :=
  ⟨claim_C2_commit_atomicity.1 c2wState [[103]] 420 9 true (by decide),
    claim_C2_commit_atomicity.2.1 c2wState [[102]] false (by decide),
    claim_C2_commit_atomicity.2.2.1 c2wState [[102]] [[104]] (by decide),
    claim_C2_commit_atomicity.2.2.2.1 c2wState 2 55 9 (by decide),
    claim_C2_commit_atomicity.2.2.2.2 c2wState [[100]] 493 false 9
      (fun _ => true) (by decide)⟩

/-- C2 counterexample: update_size on the root directory with a failing
commit returns the commit's IOError but has already mutated the in-memory
directory map, so the claim as stated (covering update_size) is false. -/
theorem claim_C2_counterexample :
    (updateSize initialTree 1 5 99 false).1 = Status.ioError ∧
    (updateSize initialTree 1 5 99 false).2.dirInodes ≠
      initialTree.dirInodes := by
  decide

-- ─── Mkdir idempotence (C10) ───────────────────────────────────────────────

theorem createDirGo_terminal (remaining : List (List Nat)) :
    ∀ (s : TreeState) (current : Nat) (recursive : Bool) (mode now : Nat)
      (bo co : Nat → Bool) (created : Nat),
    terminalFound s.dirInodes remaining current = true →
    ∃ cid, createDirGo s remaining current recursive mode now bo co created =
      (Status.alreadyExists, s, some cid) := by
  induction remaining with
  | nil =>
      intro s current recursive mode now bo co created h
      simp [terminalFound] at h
  | cons part rest ih =>
      intro s current recursive mode now bo co created h
      cases rest with
      | nil =>
          simp only [terminalFound] at h
          cases hl : lookupA s.dirInodes current with
          | none => rw [hl] at h; simp at h
          | some node =>
              rw [hl] at h
              simp only [Bool.and_eq_true] at h
              obtain ⟨hdir, hchild⟩ := h
              have hcont : containsA s.dirInodes current = true := by
                simp [containsA, hl]
              obtain ⟨child, hch⟩ : ∃ c, lookupA node.children part = some c := by
                cases hc : lookupA node.children part with
                | none => simp [containsA, hc] at hchild
                | some c => exact ⟨c, rfl⟩
              refine ⟨child, ?_⟩
              simp only [createDirGo, hcont, if_true, hl, Option.getD_some,
                hdir, Bool.not_true, hch]
              simp
      | cons part2 rest2 =>
          simp only [terminalFound] at h
          cases hl : lookupA s.dirInodes current with
          | none => rw [hl] at h; simp at h
          | some node =>
              rw [hl] at h
              simp only [Bool.and_eq_true] at h
              obtain ⟨hdir, hrest⟩ := h
              have hcont : containsA s.dirInodes current = true := by
                simp [containsA, hl]
              cases hc : lookupA node.children part with
              | none => rw [hc] at hrest; simp at hrest
              | some child =>
                  rw [hc] at hrest
                  obtain ⟨cid, hcid⟩ := ih s child recursive mode now bo co
                    created hrest
                  refine ⟨cid, ?_⟩
                  rw [createDirGo.eq_def]
                  simp only [hcont, if_true, hl, Option.getD_some, hdir,
                    Bool.not_true, hc, List.isEmpty_cons,
                    Bool.false_eq_true, if_false]
                  exact hcid

/-- C10: whenever the terminal path component already exists — even when the
existing inode is a file — CreateDirectory reports AlreadyExists and changes
nothing (memory and store), and the master's Mkdir maps that to OK. -/
theorem claim_C10_mkdir_idempotent (s : TreeState) (parts : List (List Nat))
    (mode : Nat) (recursive : Bool) (now : Nat) (bo co : Nat → Bool)
    (hterm : terminalFound s.dirInodes parts kRootId = true) :
    (createDirectory s parts mode recursive now bo co).1 =
        Status.alreadyExists ∧
    (createDirectory s parts mode recursive now bo co).2.1 = s ∧
    (mkdir s parts mode recursive now bo co).1 = Status.ok ∧
    (mkdir s parts mode recursive now bo co).2 = s := by
  have hne : ¬parts.isEmpty = true := by
    cases parts with
    | nil => simp [terminalFound] at hterm
    | cons a b => simp
  obtain ⟨cid, hcid⟩ := createDirGo_terminal parts s kRootId recursive mode
    now bo co 0 hterm
  have hcd : createDirectory s parts mode recursive now bo co =
      (Status.alreadyExists, s, some cid) := by
    simp only [createDirectory, if_neg hne]
    exact hcid
  refine ⟨by rw [hcd], by rw [hcd], ?_, ?_⟩
  · simp [mkdir, hcd]
  · simp [mkdir, hcd]

/-- Witness for C10 at a concrete state whose root has a single file child
(name byte 102): mkdir on that file path returns OK and changes nothing. -/
theorem claim_C10_mkdir_idempotent_witness :
    (createDirectory c2wState [[102]] 493 false 9 (fun _ => true)
        (fun _ => true)).1 = Status.alreadyExists ∧
    (createDirectory c2wState [[102]] 493 false 9 (fun _ => true)
        (fun _ => true)).2.1 = c2wState ∧
    (mkdir c2wState [[102]] 493 false 9 (fun _ => true)
        (fun _ => true)).1 = Status.ok ∧
    (mkdir c2wState [[102]] 493 false 9 (fun _ => true)
        (fun _ => true)).2 = c2wState :=
  claim_C10_mkdir_idempotent c2wState [[102]] 493 false 9 (fun _ => true)
    (fun _ => true) (by decide)

end AnyCache

namespace AnyCache

-- ─── LRU seed test (C6) ────────────────────────────────────────────────────

/-- C6 counterexample: with blocks 1, 2, 3 of 100 bytes each and block 1
accessed, a request to evict 200 bytes returns blocks 2 and 3, not exactly
the set containing 2: one 100-byte victim cannot reach 200 bytes. -/
theorem claim_C6_counterexample :
    (getEvictionCandidates c6State 200).1 ≠ [2] ∧
    3 ∈ (getEvictionCandidates c6State 200).1 := by
  decide

/-- C6 (amended): with the LRU policy, after inserting blocks 1, 2 and 3 of
100 bytes each and accessing block 1, a request to evict 200 bytes returns
exactly blocks 2 and 3 in that order; with the sizes of the repository's own
test (100, 200, 300 bytes) the result is exactly the set containing 2. -/
theorem claim_C6_lru_eviction_order :
    (getEvictionCandidates c6State 200).1 = [2, 3] ∧
    (getEvictionCandidates c6RepoState 200).1 = [2] := by
  decide

-- ─── Auto-promotion (C7) ───────────────────────────────────────────────────

theorem findTier_type (ts : List Tier) (ty : TierType) (t : Tier)
    (h : findTier ts ty = some t) : t.type = ty := by
  induction ts with
  | nil => simp [findTier] at h
  | cons t0 rest ih =>
      by_cases h0 : t0.type = ty
      · simp [findTier, h0] at h
        rw [← h]; exact h0
      · simp only [findTier, if_neg h0] at h
        exact ih h

theorem promoteBlock_tierOf (s : BSState) (id : Nat) (target : TierType)
    (cur : TierType) (hcur : lookupA s.blockTierMap id = some cur)
    (hne : cur ≠ target) :
    tierOf (promoteBlock s id target).2 id = some cur ∨
    tierOf (promoteBlock s id target).2 id = some target := by
  cases hft : findTier s.tiers cur with
  | none => left; simp [promoteBlock, hcur, hft, tierOf]
  | some src =>
      have hty := findTier_type s.tiers cur src hft
      have hcond : ¬(src.type = target) := by rw [hty]; exact hne
      cases hft2 : findTier s.tiers target with
      | none =>
          left
          simp [promoteBlock, hcur, hft, if_neg hcond, hft2, tierOf]
      | some dst =>
          cases hb : lookupA src.blocks id with
          | none =>
              left
              simp [promoteBlock, hcur, hft, if_neg hcond, hft2, hb, tierOf]
          | some sz =>
              cases ha : tierAllocate dst id sz with
              | mk st dst' =>
                  cases st with
                  | ok =>
                      right
                      simp only [promoteBlock, hcur, hft, if_neg hcond, hft2,
                        hb, ha, tierOf]
                      exact lookupA_insertA_self ..
                  | notFound =>
                      left
                      simp [promoteBlock, hcur, hft, if_neg hcond, hft2, hb,
                        ha, tierOf]
                  | alreadyExists =>
                      left
                      simp [promoteBlock, hcur, hft, if_neg hcond, hft2, hb,
                        ha, tierOf]
                  | invalidArgument =>
                      left
                      simp [promoteBlock, hcur, hft, if_neg hcond, hft2, hb,
                        ha, tierOf]
                  | ioError =>
                      left
                      simp [promoteBlock, hcur, hft, if_neg hcond, hft2, hb,
                        ha, tierOf]
                  | resourceExhausted =>
                      left
                      simp [promoteBlock, hcur, hft, if_neg hcond, hft2, hb,
                        ha, tierOf]
                  | unavailable =>
                      left
                      simp [promoteBlock, hcur, hft, if_neg hcond, hft2, hb,
                        ha, tierOf]
                  | internal =>
                      left
                      simp [promoteBlock, hcur, hft, if_neg hcond, hft2, hb,
                        ha, tierOf]

theorem maybeAutoPromote_step (s : BSState) (id : Nat) (m : BlockMeta) :
    tierOf (maybeAutoPromote s id m) id = tierOf s id ∨
    (∃ t t', tierOf s id = some t ∧
      tierOf (maybeAutoPromote s id m) id = some t' ∧
      tierRank t' < tierRank t) := by
  by_cases h0 : s.opts.autoPromoteAccessThreshold = 0
  · left; simp [maybeAutoPromote, h0]
  by_cases h1 : m.access_count < s.opts.autoPromoteAccessThreshold
  · left; simp [maybeAutoPromote, h0, h1]
  cases hcur : lookupA s.blockTierMap id with
  | none => left; simp [maybeAutoPromote, h0, h1, hcur]
  | some currentTier =>
      cases currentTier with
      | kMemory => left; simp [maybeAutoPromote, h0, h1, hcur]
      | kSSD =>
          cases hft : findTier s.tiers TierType.kMemory with
          | none => left; simp [maybeAutoPromote, h0, h1, hcur, hft]
          | some dst =>
              by_cases hav : tierAvailable dst < m.length
              · left; simp [maybeAutoPromote, h0, h1, hcur, hft, hav]
              · have hred : maybeAutoPromote s id m =
                    (promoteBlock s id TierType.kMemory).2 := by
                  simp [maybeAutoPromote, h0, h1, hcur, hft, hav]
                rw [hred]
                rcases promoteBlock_tierOf s id TierType.kMemory
                    TierType.kSSD hcur (by decide) with h | h
                · left; rw [h]; simp [tierOf, hcur]
                · right
                  exact ⟨TierType.kSSD, TierType.kMemory,
                    by simp [tierOf, hcur], h, by decide⟩
      | kHDD =>
          cases hft : findTier s.tiers TierType.kSSD with
          | none => left; simp [maybeAutoPromote, h0, h1, hcur, hft]
          | some dst =>
              by_cases hav : tierAvailable dst < m.length
              · left; simp [maybeAutoPromote, h0, h1, hcur, hft, hav]
              · have hred : maybeAutoPromote s id m =
                    (promoteBlock s id TierType.kSSD).2 := by
                  simp [maybeAutoPromote, h0, h1, hcur, hft, hav]
                rw [hred]
                rcases promoteBlock_tierOf s id TierType.kSSD
                    TierType.kHDD hcur (by decide) with h | h
                · left; rw [h]; simp [tierOf, hcur]
                · right
                  exact ⟨TierType.kHDD, TierType.kSSD,
                    by simp [tierOf, hcur], h, by decide⟩

theorem tierChanges_le_rank (ms : List BlockMeta) :
    ∀ (s : BSState) (id : Nat),
    tierChanges s id ms ≤
      (match tierOf s id with
       | none => 0
       | some t => tierRank t) := by
  induction ms with
  | nil => intro s id; simp [tierChanges]
  | cons m rest ih =>
      intro s id
      simp only [tierChanges]
      rcases maybeAutoPromote_step s id m with hsame | ⟨t, t', hcur, hnew, hlt⟩
      · rw [if_pos hsame, Nat.zero_add]
        have := ih (maybeAutoPromote s id m) id
        rw [hsame] at this
        exact this
      · have hneq : tierOf (maybeAutoPromote s id m) id ≠ tierOf s id := by
          rw [hcur, hnew]
          intro hx
          have ht : t' = t := by injection hx
          subst ht
          omega
        rw [if_neg hneq]
        have := ih (maybeAutoPromote s id m) id
        simp only [hnew] at this
        simp only [hcur]
        omega

/-- C7 counterexample: PromoteBlock accepts any target tier; on a block
resident in memory, an explicit PromoteBlock to the HDD tier succeeds and
moves the block to a strictly slower tier, so a promotion is not always a
move to a faster tier. -/
theorem claim_C7_counterexample :
    (promoteBlock c7State 1 TierType.kHDD).1 = Status.ok ∧
    tierOf c7State 1 = some TierType.kMemory ∧
    tierOf (promoteBlock c7State 1 TierType.kHDD).2 1 =
      some TierType.kHDD ∧
    tierRank TierType.kMemory < tierRank TierType.kHDD := by
  decide

/-- C7 (amended): the promotion triggered after a read (MaybeAutoPromote)
either leaves the block's tier unchanged or moves it to a strictly faster
tier, and any sequence of such auto-promotion attempts moves a given block
at most (number of tier kinds − 1) = 2 times.  Explicit PromoteBlock calls,
by contrast, move the block to whatever tier is requested, including a
slower one (see the counterexample). -/
theorem claim_C7_auto_promotion_monotone :
    (∀ (s : BSState) (id : Nat) (m : BlockMeta),
      tierOf (maybeAutoPromote s id m) id = tierOf s id ∨
      (∃ t t', tierOf s id = some t ∧
        tierOf (maybeAutoPromote s id m) id = some t' ∧
        tierRank t' < tierRank t)) ∧
    (∀ (s : BSState) (id : Nat) (ms : List BlockMeta),
      tierChanges s id ms ≤ 2) :=
  ⟨maybeAutoPromote_step,
    fun s id ms => by
      have := tierChanges_le_rank ms s id
      have h2 : (match tierOf s id with
          | none => 0
          | some t => tierRank t) ≤ 2 := by
        cases tierOf s id with
        | none => decide
        | some t => cases t <;> decide
      omega⟩

end AnyCache

namespace AnyCache

-- ─── Allocator monotonicity (C8) ───────────────────────────────────────────

theorem allocRun_append (a b : List AllocEv) :
    ∀ s : AllocState,
    allocRun s (a ++ b) =
      ((allocRun s a).1 ++ (allocRun (allocRun s a).2 b).1,
        (allocRun (allocRun s a).2 b).2) := by
  induction a with
  | nil => intro s; simp [allocRun]
  | cons e rest ih =>
      intro s
      cases e with
      | alloc ok => simp [allocRun, ih]
      | restart => simp [allocRun, ih]

theorem allocStep_fst (s : AllocState) (ok : Bool) :
    (allocStep s ok).1 = s.nextId := by
  simp only [allocStep]
  split <;> rfl

theorem allocStep_snd_hi (s : AllocState) (ok : Bool)
    (ht : s.allocEnd ≤ s.nextId) :
    (allocStep s ok).2 =
      { nextId := s.nextId + 1, allocEnd := s.nextId + kIdAllocBatchSize
        persisted := if ok then some (s.nextId + kIdAllocBatchSize)
          else s.persisted } := by
  simp [allocStep, ht]

theorem allocStep_snd_lo (s : AllocState) (ok : Bool)
    (ht : ¬s.allocEnd ≤ s.nextId) :
    (allocStep s ok).2 = { s with nextId := s.nextId + 1 } := by
  simp [allocStep, ht]

theorem allocRun_snd_cons_alloc (s : AllocState) (ok : Bool)
    (rest : List AllocEv) :
    (allocRun s (AllocEv.alloc ok :: rest)).2 =
      (allocRun (allocStep s ok).2 rest).2 := rfl

theorem allocRestart_eq_none (s : AllocState) (h : s.persisted = none) :
    allocRestart s = s := by
  simp [allocRestart, h]

theorem allocRestart_eq_pos (s : AllocState) (c : Nat)
    (h : s.persisted = some c) (hc : 0 < c) :
    allocRestart s = { nextId := c, allocEnd := c, persisted := some c } := by
  simp [allocRestart, h, hc]

theorem allocRestart_eq_zero (s : AllocState) (c : Nat)
    (h : s.persisted = some c) (hc : ¬0 < c) :
    allocRestart s = s := by
  simp [allocRestart, h, hc]

theorem allocRun_no_trigger_state (n : Nat) :
    ∀ s : AllocState, s.nextId + n ≤ s.allocEnd →
    (allocRun s (List.replicate n (AllocEv.alloc true))).2 =
      { s with nextId := s.nextId + n } := by
  induction n with
  | zero => intro s _; simp [allocRun]
  | succ n ih =>
      intro s h
      rw [List.replicate_succ]
      simp only [allocRun]
      rw [allocStep_snd_lo s true (by omega)]
      rw [ih { s with nextId := s.nextId + 1 } (by simp; omega)]
      simp
      omega

theorem allocRun_mono (evs : List AllocEv) :
    ∀ s : AllocState, allOkEvs evs →
    s.nextId ≤ s.allocEnd →
    (s.persisted = none ∨ s.persisted = some s.allocEnd) →
    ((allocRun s evs).2.nextId ≤ (allocRun s evs).2.allocEnd ∧
      ((allocRun s evs).2.persisted = none ∨
        (allocRun s evs).2.persisted = some (allocRun s evs).2.allocEnd)) ∧
    s.nextId ≤ (allocRun s evs).2.nextId ∧
    (∀ x ∈ (allocRun s evs).1, s.nextId ≤ x) ∧
    List.Pairwise (· < ·) (allocRun s evs).1 := by
  induction evs with
  | nil =>
      intro s _ hna hp
      exact ⟨⟨hna, hp⟩, le_refl _,
        fun x hx => absurd hx (by simp [allocRun]), List.Pairwise.nil⟩
  | cons e rest ih =>
      intro s hok hna hp
      have hok' : allOkEvs rest := fun e he => hok e (List.mem_cons_of_mem _ he)
      cases e with
      | restart =>
          simp only [allocRun]
          have hinv : (allocRestart s).nextId ≤ (allocRestart s).allocEnd ∧
              ((allocRestart s).persisted = none ∨
                (allocRestart s).persisted = some (allocRestart s).allocEnd) ∧
              s.nextId ≤ (allocRestart s).nextId := by
            rcases hp with hnone | hsome
            · rw [allocRestart_eq_none s hnone]
              exact ⟨hna, Or.inl hnone, le_refl _⟩
            · by_cases hc : 0 < s.allocEnd
              · rw [allocRestart_eq_pos s s.allocEnd hsome hc]
                exact ⟨le_refl _, Or.inr rfl, hna⟩
              · rw [allocRestart_eq_zero s s.allocEnd hsome hc]
                exact ⟨hna, Or.inr hsome, le_refl _⟩
          obtain ⟨h1, h2, h3⟩ := hinv
          have hrec := ih (allocRestart s) hok' h1 h2
          exact ⟨hrec.1, le_trans h3 hrec.2.1,
            fun x hx => le_trans h3 (hrec.2.2.1 x hx), hrec.2.2.2⟩
      | alloc ok =>
          have hoktrue : ok = true := by
            have := hok (AllocEv.alloc ok) (List.mem_cons_self _ _)
            cases ok
            · exact absurd rfl this
            · rfl
          subst hoktrue
          simp only [allocRun, allocStep_fst]
          have hinv : (allocStep s true).2.nextId ≤
                (allocStep s true).2.allocEnd ∧
              ((allocStep s true).2.persisted = none ∨
                (allocStep s true).2.persisted =
                  some (allocStep s true).2.allocEnd) ∧
              (allocStep s true).2.nextId = s.nextId + 1 := by
            by_cases ht : s.allocEnd ≤ s.nextId
            · rw [allocStep_snd_hi s true ht]
              refine ⟨by simp [kIdAllocBatchSize], Or.inr (by simp), rfl⟩
            · rw [allocStep_snd_lo s true ht]
              exact ⟨by simp; omega, hp, rfl⟩
          obtain ⟨h1, h2, h3⟩ := hinv
          have hrec := ih (allocStep s true).2 hok' h1 h2
          refine ⟨hrec.1, ?_, ?_, ?_⟩
          · have := hrec.2.1
            omega
          · intro x hx
            simp only [List.mem_cons] at hx
            rcases hx with rfl | hx
            · exact le_refl _
            · have := hrec.2.2.1 x hx
              omega
          · refine List.Pairwise.cons ?_ hrec.2.2.2
            intro x hx
            have := hrec.2.2.1 x hx
            omega

theorem allocRun_curs (evs : List AllocEv) :
    ∀ s : AllocState,
    s.nextId ≤ s.allocEnd →
    (∀ c, s.persisted = some c → c ≤ s.allocEnd) →
    ((allocRun s evs).2.nextId ≤ (allocRun s evs).2.allocEnd ∧
      (∀ c, (allocRun s evs).2.persisted = some c →
        c ≤ (allocRun s evs).2.allocEnd)) ∧
    cursOf s ≤ cursOf (allocRun s evs).2 := by
  induction evs with
  | nil =>
      intro s hna hc
      exact ⟨⟨hna, hc⟩, le_refl _⟩
  | cons e rest ih =>
      intro s hna hc
      cases e with
      | restart =>
          simp only [allocRun]
          have hinv : (allocRestart s).nextId ≤ (allocRestart s).allocEnd ∧
              (∀ c, (allocRestart s).persisted = some c →
                c ≤ (allocRestart s).allocEnd) ∧
              cursOf s ≤ cursOf (allocRestart s) := by
            cases hpv : s.persisted with
            | none =>
                rw [allocRestart_eq_none s hpv]
                exact ⟨hna, hc, le_refl _⟩
            | some c0 =>
                by_cases h0 : 0 < c0
                · rw [allocRestart_eq_pos s c0 hpv h0]
                  refine ⟨le_refl _, ?_, ?_⟩
                  · intro c hcc
                    simp only [Option.some.injEq] at hcc
                    simp [← hcc]
                  · simp [cursOf, hpv]
                · rw [allocRestart_eq_zero s c0 hpv h0]
                  exact ⟨hna, hc, le_refl _⟩
          obtain ⟨h1, h2, h3⟩ := hinv
          have hrec := ih (allocRestart s) h1 h2
          exact ⟨hrec.1, le_trans h3 hrec.2⟩
      | alloc ok =>
          simp only [allocRun]
          have hinv : (allocStep s ok).2.nextId ≤ (allocStep s ok).2.allocEnd ∧
              (∀ c, (allocStep s ok).2.persisted = some c →
                c ≤ (allocStep s ok).2.allocEnd) ∧
              cursOf s ≤ cursOf (allocStep s ok).2 := by
            by_cases ht : s.allocEnd ≤ s.nextId
            · rw [allocStep_snd_hi s ok ht]
              cases ok with
              | false =>
                  refine ⟨by simp [kIdAllocBatchSize], ?_, ?_⟩
                  · intro c hcc
                    simp at hcc
                    have := hc c hcc
                    simp
                    omega
                  · simp [cursOf]
              | true =>
                  refine ⟨by simp [kIdAllocBatchSize], ?_, ?_⟩
                  · intro c hcc
                    simp at hcc
                    simp [hcc]
                  · cases hpv : s.persisted with
                    | none => simp [cursOf, hpv]
                    | some c0 =>
                        have := hc c0 hpv
                        simp [cursOf, hpv]
                        omega
            · rw [allocStep_snd_lo s ok ht]
              refine ⟨by simp; omega, ?_, le_refl _⟩
              intro c hcc
              exact hc c hcc
          obtain ⟨h1, h2, h3⟩ := hinv
          have hrec := ih (allocStep s ok).2 h1 h2
          exact ⟨hrec.1, le_trans h3 hrec.2⟩

/-- C8 counterexample: ids 2..1002 are allocated with only the first cursor
commit (value 1002) succeeding; the cursor commit at id 1002 fails
(best-effort, status discarded), so after a restart the allocator reissues
id 1002, and the sequence of returned ids is not strictly increasing. -/
theorem claim_C8_counterexample :
    ¬ List.Pairwise (· < ·) (allocRun allocInit c8Trace).1 := by
  intro h
  have hsplit := allocRun_append (List.replicate 1000 (AllocEv.alloc true))
    [AllocEv.alloc false, AllocEv.restart, AllocEv.alloc true] allocInit
  have hstate : (allocRun allocInit
      (List.replicate 1000 (AllocEv.alloc true))).2 =
      { nextId := 1002, allocEnd := 1002, persisted := some 1002 } := by
    rw [(by rfl : (1000 : Nat) = 999 + 1), List.replicate_succ,
      allocRun_snd_cons_alloc]
    rw [(by decide : (allocStep allocInit true).2 =
      { nextId := 3, allocEnd := 1002, persisted := some 1002 })]
    rw [allocRun_no_trigger_state 999
      { nextId := 3, allocEnd := 1002, persisted := some 1002 }
      (by decide)]
  rw [show c8Trace = List.replicate 1000 (AllocEv.alloc true) ++
    [AllocEv.alloc false, AllocEv.restart, AllocEv.alloc true] from rfl,
    hsplit] at h
  rw [hstate] at h
  have htail := h.sublist (List.sublist_append_right _ _)
  rw [(by decide : (allocRun
      { nextId := 1002, allocEnd := 1002, persisted := some 1002 }
      [AllocEv.alloc false, AllocEv.restart, AllocEv.alloc true]).1 =
      [1002, 1002])] at htail
  simp at htail

/-- C8 (amended): provided every best-effort cursor commit succeeds, the ids
handed out across any sequence of allocations interleaved with restarts are
strictly increasing; and unconditionally — even with failing cursor
commits — the persisted cursor value never decreases along a run.  With a
failed cursor commit followed by a restart the code can reissue ids (see the
counterexample). -/
theorem claim_C8_allocator_monotonic :
    (∀ evs : List AllocEv, allOkEvs evs →
      List.Pairwise (· < ·) (allocRun allocInit evs).1) ∧
    (∀ evs evs' : List AllocEv,
      cursOf (allocRun allocInit evs).2 ≤
        cursOf (allocRun allocInit (evs ++ evs')).2) :=
  ⟨fun evs hok =>
    (allocRun_mono evs allocInit hok (by decide) (Or.inl rfl)).2.2.2,
  fun evs evs' => by
    rw [allocRun_append]
    have h0 := allocRun_curs evs allocInit (by decide) (by simp [allocInit])
    exact (allocRun_curs evs' (allocRun allocInit evs).2 h0.1.1 h0.1.2).2⟩

/-- Witness for C8 at a concrete three-event trace with all cursor commits
succeeding. -/
theorem claim_C8_allocator_monotonic_witness :
    allOkEvs [AllocEv.alloc true, AllocEv.restart, AllocEv.alloc true] ∧
    List.Pairwise (· < ·)
      (allocRun allocInit
        [AllocEv.alloc true, AllocEv.restart, AllocEv.alloc true]).1 :=
  ⟨by decide, claim_C8_allocator_monotonic.1 _ (by decide)⟩

end AnyCache

namespace AnyCache

-- ─── Worker-for-write selection (C9) ───────────────────────────────────────

theorem selectFold_spec (ws : List WorkerState) :
    ∀ bid bav : Nat,
    (ws.foldl selectFoldStep (bid, bav) = (bid, bav) ∧
      ∀ w ∈ ws, w.alive = true → workerAvail w ≤ bav) ∨
    (∃ w ∈ ws, ws.foldl selectFoldStep (bid, bav) = (w.id, workerAvail w) ∧
      w.alive = true ∧ bav < workerAvail w ∧
      ∀ w' ∈ ws, w'.alive = true → workerAvail w' ≤ workerAvail w) := by
  induction ws with
  | nil =>
      intro bid bav
      left
      exact ⟨rfl, by simp⟩
  | cons w rest ih =>
      intro bid bav
      by_cases halive : w.alive = true
      · by_cases hgt : bav < workerAvail w
        · have hfold : (w :: rest).foldl selectFoldStep (bid, bav) =
              rest.foldl selectFoldStep (w.id, workerAvail w) := by
            simp [List.foldl, selectFoldStep, halive, hgt]
          rcases ih w.id (workerAvail w) with
            ⟨heq, hbound⟩ | ⟨w', hmem, heq, hal, hlt, hmax⟩
          · right
            refine ⟨w, List.mem_cons_self _ _, ?_, halive, hgt, ?_⟩
            · rw [hfold, heq]
            · intro w' hw' ha
              rcases List.mem_cons.1 hw' with rfl | h
              · exact le_refl _
              · exact hbound w' h ha
          · right
            refine ⟨w', List.mem_cons_of_mem _ hmem, ?_, hal, ?_, ?_⟩
            · rw [hfold, heq]
            · omega
            · intro w'' hw'' ha
              rcases List.mem_cons.1 hw'' with rfl | h
              · omega
              · exact hmax w'' h ha
        · have hfold : (w :: rest).foldl selectFoldStep (bid, bav) =
              rest.foldl selectFoldStep (bid, bav) := by
            simp [List.foldl, selectFoldStep, halive, hgt]
          rcases ih bid bav with
            ⟨heq, hbound⟩ | ⟨w', hmem, heq, hal, hlt, hmax⟩
          · left
            refine ⟨by rw [hfold, heq], ?_⟩
            intro w' hw' ha
            rcases List.mem_cons.1 hw' with rfl | h
            · omega
            · exact hbound w' h ha
          · right
            refine ⟨w', List.mem_cons_of_mem _ hmem, ?_, hal, hlt, ?_⟩
            · rw [hfold, heq]
            · intro w'' hw'' ha
              rcases List.mem_cons.1 hw'' with rfl | h
              · omega
              · exact hmax w'' h ha
      · have hfold : (w :: rest).foldl selectFoldStep (bid, bav) =
            rest.foldl selectFoldStep (bid, bav) := by
          simp [List.foldl, selectFoldStep, halive]
        rcases ih bid bav with
          ⟨heq, hbound⟩ | ⟨w', hmem, heq, hal, hlt, hmax⟩
        · left
          refine ⟨by rw [hfold, heq], ?_⟩
          intro w' hw' ha
          rcases List.mem_cons.1 hw' with rfl | h
          · exact absurd ha halive
          · exact hbound w' h ha
        · right
          refine ⟨w', List.mem_cons_of_mem _ hmem, ?_, hal, hlt, ?_⟩
          · rw [hfold, heq]
          · intro w'' hw'' ha
            rcases List.mem_cons.1 hw'' with rfl | h
            · exact absurd ha halive
            · exact hmax w'' h ha

theorem selectWorker_spec (workers : List WorkerState)
    (hid : ∀ w ∈ workers, w.id ≠ 0) :
    ((∃ w ∈ workers, w.alive = true ∧ 0 < workerAvail w) →
      ∃ w ∈ workers, w.alive = true ∧
        selectWorkerForWrite workers = (Status.ok, w.id) ∧
        ∀ w' ∈ workers, w'.alive = true →
          workerAvail w' ≤ workerAvail w) ∧
    ((¬ ∃ w ∈ workers, w.alive = true ∧ 0 < workerAvail w) →
      selectWorkerForWrite workers = (Status.unavailable, 0)) := by
  rcases selectFold_spec workers 0 0 with
    ⟨heq, hbound⟩ | ⟨w, hmem, heq, hal, hlt, hmax⟩
  · constructor
    · intro ⟨w, hw, ha, hpos⟩
      have := hbound w hw ha
      omega
    · intro _
      simp only [selectWorkerForWrite, heq]
      rfl
  · constructor
    · intro _
      refine ⟨w, hmem, hal, ?_, hmax⟩
      simp only [selectWorkerForWrite, heq]
      rw [if_neg (hid w hmem)]
    · intro hno
      exact absurd ⟨w, hmem, hal, hlt⟩ hno

/-- C9 counterexample: with a single alive worker reporting zero available
bytes (capacity = used = 100), CreateFile succeeds but returns the invalid
sentinel worker id 0, which is not the id of any alive worker, although an
alive worker exists. -/
theorem claim_C9_counterexample :
    (masterCreateFile initialTree [[102]] 420 7 true true
        [{ id := 1, capacity_bytes := 100, used_bytes := 100 }]).1 =
      Status.ok ∧
    (masterCreateFile initialTree [[102]] 420 7 true true
        [{ id := 1, capacity_bytes := 100, used_bytes := 100 }]).2.2.2 = 0 ∧
    (∃ w ∈ ([{ id := 1, capacity_bytes := 100, used_bytes := 100 }] :
        List WorkerState), w.alive = true) ∧
    (∀ w ∈ ([{ id := 1, capacity_bytes := 100, used_bytes := 100 }] :
        List WorkerState), w.id ≠ 0) := by
  decide

/-- C9 (amended): when the inode creation succeeds, the master returns OK;
if some alive worker has a nonzero available-byte count (capacity − used in
wrapping 64-bit arithmetic), the returned worker id belongs to an alive
worker whose available bytes are maximal among alive workers; otherwise —
no alive worker, or every alive worker reports zero available bytes — the
returned worker id is the invalid sentinel 0 and the call still returns OK. -/
theorem claim_C9_worker_selection (workers : List WorkerState)
    (hid : ∀ w ∈ workers, w.id ≠ 0)
    (s : TreeState) (parts : List (List Nat)) (mode now : Nat)
    (curOk cOk : Bool)
    (hcf : (createFile s parts mode now curOk cOk).1 = Status.ok) :
    (masterCreateFile s parts mode now curOk cOk workers).1 = Status.ok ∧
    ((∃ w ∈ workers, w.alive = true ∧ 0 < workerAvail w) →
      ∃ w ∈ workers, w.alive = true ∧
        (masterCreateFile s parts mode now curOk cOk workers).2.2.2 = w.id ∧
        ∀ w' ∈ workers, w'.alive = true →
          workerAvail w' ≤ workerAvail w) ∧
    ((¬ ∃ w ∈ workers, w.alive = true ∧ 0 < workerAvail w) →
      (masterCreateFile s parts mode now curOk cOk workers).2.2.2 = 0) := by
  rcases hcfe : createFile s parts mode now curOk cOk with ⟨st, s', oid⟩
  rw [hcfe] at hcf
  simp only at hcf
  subst hcf
  obtain ⟨hsel1, hsel2⟩ := selectWorker_spec workers hid
  by_cases hex : ∃ w ∈ workers, w.alive = true ∧ 0 < workerAvail w
  · obtain ⟨w, hmem, hal, hseq, hmax⟩ := hsel1 hex
    refine ⟨?_, fun _ => ⟨w, hmem, hal, ?_, hmax⟩, fun hno => absurd hex hno⟩
    · simp [masterCreateFile, hcfe, hseq]
    · simp [masterCreateFile, hcfe, hseq]
  · have hseq := hsel2 hex
    refine ⟨?_, fun hyes => absurd hyes hex, fun _ => ?_⟩
    · simp [masterCreateFile, hcfe, hseq]
    · simp [masterCreateFile, hcfe, hseq]

/-- Witness for C9 at a concrete state and two workers, one alive with 60
available bytes. -/
theorem claim_C9_worker_selection_witness :
    ((∀ w ∈ ([{ id := 1, capacity_bytes := 100, used_bytes := 40 },
        { id := 2, capacity_bytes := 50, used_bytes := 50 }] :
        List WorkerState), w.id ≠ 0) ∧
      (createFile initialTree [[102]] 420 7 true true).1 = Status.ok) ∧
    (masterCreateFile initialTree [[102]] 420 7 true true
        [{ id := 1, capacity_bytes := 100, used_bytes := 40 },
          { id := 2, capacity_bytes := 50, used_bytes := 50 }]).1 =
      Status.ok := by
  refine ⟨⟨by decide, by decide⟩, ?_⟩
  exact (claim_C9_worker_selection
    [{ id := 1, capacity_bytes := 100, used_bytes := 40 },
      { id := 2, capacity_bytes := 50, used_bytes := 50 }]
    (by decide) initialTree [[102]] 420 7 true true (by decide)).1

end AnyCache

namespace AnyCache

-- ─── Eviction sufficiency (C5) ─────────────────────────────────────────────

theorem lookupA_eraseA_ne {α β : Type} [DecidableEq α]
    (m : List (α × β)) (v i : α) (h : i ≠ v) :
    lookupA (eraseA m v) i = lookupA m i := by
  induction m with
  | nil => rfl
  | cons p rest ih =>
      obtain ⟨k, val⟩ := p
      by_cases hk : k = v
      · subst hk
        have hki : ¬ k = i := fun he => h (he ▸ rfl)
        simp [eraseA, lookupA, hki]
      · simp only [eraseA, if_neg hk, lookupA]
        by_cases hki : k = i
        · simp [hki]
        · simp [hki, ih]

theorem sumSizes_foldl (m : List (Nat × Nat)) (ids : List Nat) :
    ∀ n : Nat, ids.foldl (fun a i => a + (lookupA m i).getD 0) n =
      n + sumSizes m ids := by
  induction ids with
  | nil =>
      intro n
      simp [sumSizes]
  | cons i rest ih =>
      intro n
      have h2 := ih (0 + (lookupA m i).getD 0)
      have h3 : sumSizes m (i :: rest) =
          (0 + (lookupA m i).getD 0) + sumSizes m rest := h2
      have h4 := ih (n + (lookupA m i).getD 0)
      simp only [List.foldl]
      omega

theorem sumSizes_cons (m : List (Nat × Nat)) (v : Nat) (ids : List Nat) :
    sumSizes m (v :: ids) = (lookupA m v).getD 0 + sumSizes m ids := by
  have h := sumSizes_foldl m ids (0 + (lookupA m v).getD 0)
  have h2 : sumSizes m (v :: ids) =
      (0 + (lookupA m v).getD 0) + sumSizes m ids := h
  omega

theorem sumSizes_congr (m m' : List (Nat × Nat)) (ids : List Nat)
    (h : ∀ i ∈ ids, lookupA m' i = lookupA m i) :
    sumSizes m' ids = sumSizes m ids := by
  induction ids with
  | nil => rfl
  | cons i rest ih =>
      rw [sumSizes_cons, sumSizes_cons, h i (List.mem_cons_self _ _),
        ih fun j hj => h j (List.mem_cons_of_mem _ hj)]

theorem evictLoop_sublist (needed : Nat) (order : List Nat) :
    ∀ (freed : Nat) (sizes : List (Nat × Nat)) (total : Nat),
      (evictLoop needed freed sizes total order).1.Sublist order := by
  induction order with
  | nil =>
      intro freed sizes total
      simp only [evictLoop]
      split
      · exact List.nil_sublist _
      · exact List.nil_sublist _
  | cons v rest ih =>
      intro freed sizes total
      simp only [evictLoop]
      split
      · exact List.nil_sublist _
      · split
        · exact List.nil_sublist _
        · cases hlk : lookupA sizes v with
          | some sz =>
              simp only [hlk]
              exact List.Sublist.cons₂ v (ih _ _ _)
          | none =>
              simp only [hlk]
              exact List.Sublist.cons₂ v (ih _ _ _)

theorem evictLoop_suffices (needed : Nat) (order : List Nat) :
    ∀ (freed : Nat) (sizes : List (Nat × Nat)) (total : Nat),
      order.Nodup → 0 ∉ order →
      needed ≤ freed +
          sumSizes sizes (evictLoop needed freed sizes total order).1 ∨
        (evictLoop needed freed sizes total order).2.lru.order = [] := by
  induction order with
  | nil =>
      intro freed sizes total _ _
      simp only [evictLoop]
      split
      · left
        have : sumSizes sizes ([] : List Nat) = 0 := rfl
        omega
      · right
        rfl
  | cons v rest ih =>
      intro freed sizes total hnd hz
      have hv : ¬ v = 0 := fun h => hz (h ▸ List.mem_cons_self _ _)
      have hndr : rest.Nodup := (List.nodup_cons.1 hnd).2
      have hvr : v ∉ rest := (List.nodup_cons.1 hnd).1
      have hzr : 0 ∉ rest := fun h => hz (List.mem_cons_of_mem _ h)
      simp only [evictLoop]
      by_cases hle : needed ≤ freed
      · rw [if_pos hle]
        left
        have : sumSizes sizes ([] : List Nat) = 0 := rfl
        omega
      · rw [if_neg hle, if_neg hv]
        cases hlk : lookupA sizes v with
        | some sz =>
            simp only [hlk]
            rcases ih (freed + sz) (eraseA sizes v) (total - sz) hndr hzr with
              h | h
            · left
              rw [sumSizes_cons, hlk]
              have hsub := evictLoop_sublist needed rest (freed + sz)
                (eraseA sizes v) (total - sz)
              have hcong : sumSizes (eraseA sizes v)
                    (evictLoop needed (freed + sz) (eraseA sizes v)
                      (total - sz) rest).1 =
                  sumSizes sizes
                    (evictLoop needed (freed + sz) (eraseA sizes v)
                      (total - sz) rest).1 :=
                sumSizes_congr _ _ _ fun i hi =>
                  lookupA_eraseA_ne _ _ _ fun he => hvr (he ▸ hsub.mem hi)
              simp only [Option.getD_some]
              omega
            · right
              exact h
        | none =>
            simp only [hlk]
            rcases ih freed sizes total hndr hzr with h | h
            · left
              rw [sumSizes_cons, hlk]
              simp only [Option.getD_none]
              omega
            · right
              exact h

theorem sumUsed_foldl (ts : List Tier) :
    ∀ n : Nat, ts.foldl (fun a t => a + t.used) n = n + sumUsed ts := by
  induction ts with
  | nil =>
      intro n
      simp [sumUsed]
  | cons t rest ih =>
      intro n
      have h2 := ih (0 + t.used)
      have h3 : sumUsed (t :: rest) = (0 + t.used) + sumUsed rest := h2
      have h4 := ih (n + t.used)
      simp only [List.foldl]
      omega

theorem sumUsed_cons (t : Tier) (ts : List Tier) :
    sumUsed (t :: ts) = t.used + sumUsed ts := by
  have h : sumUsed (t :: ts) = (0 + t.used) + sumUsed ts :=
    sumUsed_foldl ts (0 + t.used)
  omega

theorem tierRemove_used (t : Tier) (bid : Nat) :
    ((tierRemove t bid).2).used ≤ t.used := by
  simp only [tierRemove]
  cases hlk : lookupA t.blocks bid with
  | none => exact Nat.le_refl _
  | some sz =>
      simp only []
      omega

theorem sumUsed_updateTier (ts : List Tier) (ty : TierType) (t t' : Tier)
    (hf : findTier ts ty = some t) (hle : t'.used ≤ t.used) :
    sumUsed (updateTier ts ty t') ≤ sumUsed ts := by
  induction ts with
  | nil => simp [findTier] at hf
  | cons t0 rest ih =>
      by_cases h0 : t0.type = ty
      · have ht0 : t0 = t := by
          have := hf
          rw [findTier, if_pos h0] at this
          exact Option.some.inj this
        subst ht0
        rw [updateTier, if_pos h0]
        have e1 := sumUsed_cons t' rest
        have e2 := sumUsed_cons t0 rest
        omega
      · have hf' : findTier rest ty = some t := by
          have := hf
          rwa [findTier, if_neg h0] at this
        rw [updateTier, if_neg h0]
        have e1 := sumUsed_cons t0 (updateTier rest ty t')
        have e2 := sumUsed_cons t0 rest
        have := ih hf'
        omega

theorem evictStep_used (tier : TierType) (acc : List Nat × BSState)
    (bid : Nat) :
    sumUsed (evictBlocksStep tier acc bid).2.tiers ≤
      sumUsed acc.2.tiers := by
  simp only [evictBlocksStep]
  cases hbt : lookupA acc.2.blockTierMap bid with
  | none => exact Nat.le_refl _
  | some ty =>
      simp only []
      by_cases hty : ty = tier
      · rw [if_pos hty]
        cases hft : findTier acc.2.tiers ty with
        | none => exact Nat.le_refl _
        | some t =>
            simp only []
            exact sumUsed_updateTier _ _ _ _ hft (tierRemove_used t bid)
      · rw [if_neg hty]

theorem evictStep_fst (tier : TierType) (acc : List Nat × BSState)
    (bid : Nat) :
    (evictBlocksStep tier acc bid).1 = acc.1 ∨
      (evictBlocksStep tier acc bid).1 = acc.1 ++ [bid] := by
  simp only [evictBlocksStep]
  cases lookupA acc.2.blockTierMap bid with
  | none => left; rfl
  | some ty =>
      simp only []
      by_cases hty : ty = tier
      · rw [if_pos hty]
        cases findTier acc.2.tiers ty with
        | none => left; rfl
        | some t => right; rfl
      · rw [if_neg hty]
        left
        rfl

theorem evictFold_subset (tier : TierType) (cands : List Nat) :
    ∀ acc : List Nat × BSState,
      ∀ x ∈ (cands.foldl (evictBlocksStep tier) acc).1,
        x ∈ acc.1 ++ cands := by
  induction cands with
  | nil =>
      intro acc x hx
      simpa using hx
  | cons bid rest ih =>
      intro acc x hx
      have h2 := ih (evictBlocksStep tier acc bid) x hx
      rcases evictStep_fst tier acc bid with h | h <;>
        rw [h] at h2 <;> simp only [List.mem_append, List.mem_cons,
          List.mem_singleton] at h2 ⊢ <;> tauto

theorem evictFold_used (tier : TierType) (cands : List Nat) :
    ∀ acc : List Nat × BSState,
      sumUsed (cands.foldl (evictBlocksStep tier) acc).2.tiers ≤
        sumUsed acc.2.tiers := by
  induction cands with
  | nil =>
      intro acc
      exact Nat.le_refl _
  | cons bid rest ih =>
      intro acc
      exact Nat.le_trans (ih (evictBlocksStep tier acc bid))
        (evictStep_used tier acc bid)

/-- C5 counterexample: in `c5State` (blocks 1 and 3 of 100 bytes in memory,
block 2 of 50 bytes on the SSD, LRU order 1, 2, 3), evicting 150 bytes from
the SSD pops candidates 1 and 2 from the policy but removes only block 2,
freeing 50 < 150 bytes while the policy still holds block 3. -/
theorem claim_C5_counterexample :
    (evictBlocks c5State TierType.kSSD 150).1 = [2] ∧
    sumUsed c5State.tiers -
        sumUsed (evictBlocks c5State TierType.kSSD 150).2.tiers = 50 ∧
    (evictBlocks c5State TierType.kSSD 150).2.cm.lru.order = [3] ∧
    sumUsed c5State.tiers -
        sumUsed (evictBlocks c5State TierType.kSSD 150).2.tiers < 150 := by
  decide

/-- C5 (amended): when the LRU order is duplicate-free and does not hold the
invalid id 0, the candidate set drawn by the cache manager satisfies the
sufficiency disjunction — the summed recorded sizes of the popped candidates
reach `bytesNeeded`, or the policy is left empty; the blocks EvictBlocks
actually removes form a subset of those candidates, and the tier used-byte
total never increases, so the bytes actually freed never exceed the summed
sizes charged to the candidates.  The claim as stated fails: candidates
resident in other tiers are popped without freeing target-tier bytes, so the
bytes actually freed can fall short of `bytesNeeded` while the policy is
still non-empty. -/
theorem claim_C5_eviction_sufficiency (s : BSState) (tier : TierType)
    (needed : Nat) (hnd : s.cm.lru.order.Nodup)
    (hz : 0 ∉ s.cm.lru.order) :
    (needed ≤ sumSizes s.cm.blockSizes
        (getEvictionCandidates s.cm needed).1 ∨
      (getEvictionCandidates s.cm needed).2.lru.order = []) ∧
    (∀ x ∈ (evictBlocks s tier needed).1,
      x ∈ (getEvictionCandidates s.cm needed).1) ∧
    sumUsed (evictBlocks s tier needed).2.tiers ≤ sumUsed s.tiers := by
  refine ⟨?_, ?_, ?_⟩
  · rcases evictLoop_suffices needed s.cm.lru.order 0 s.cm.blockSizes
      s.cm.totalCachedBytes hnd hz with h | h
    · left
      simpa [getEvictionCandidates] using h
    · right
      simpa [getEvictionCandidates] using h
  · intro x hx
    simp only [evictBlocks] at hx
    have := evictFold_subset tier (getEvictionCandidates s.cm needed).1
      ([], { s with cm := (getEvictionCandidates s.cm needed).2 }) x hx
    simpa using this
  · simp only [evictBlocks]
    exact evictFold_used tier (getEvictionCandidates s.cm needed).1
      ([], { s with cm := (getEvictionCandidates s.cm needed).2 })

/-- Witness for C5 at `c5State` with the SSD tier and 150 requested bytes. -/
theorem claim_C5_eviction_sufficiency_witness :
    (c5State.cm.lru.order.Nodup ∧ 0 ∉ c5State.cm.lru.order) ∧
    ((150 ≤ sumSizes c5State.cm.blockSizes
        (getEvictionCandidates c5State.cm 150).1 ∨
      (getEvictionCandidates c5State.cm 150).2.lru.order = []) ∧
    (∀ x ∈ (evictBlocks c5State TierType.kSSD 150).1,
      x ∈ (getEvictionCandidates c5State.cm 150).1) ∧
    sumUsed (evictBlocks c5State TierType.kSSD 150).2.tiers ≤
      sumUsed c5State.tiers) :=
  ⟨⟨by decide, by decide⟩,
    claim_C5_eviction_sufficiency c5State TierType.kSSD 150
      (by decide) (by decide)⟩

end AnyCache

namespace AnyCache

-- ─── CreateBlock admission and placement (C4) ──────────────────────────────

theorem findIdx_query_first {α : Type} (p : α → Bool) (xs : List α) :
    ∀ st i, xs.findIdx? p st = some i →
      ∃ x, xs[i - st]? = some x ∧ p x = true ∧ st ≤ i ∧
        ∀ j y, j + st < i → xs[j]? = some y → p y = false := by
  induction xs with
  | nil =>
      intro st i h
      simp [List.findIdx?] at h
  | cons x rest ih =>
      intro st i h
      rw [List.findIdx?_cons] at h
      by_cases hp : p x
      · rw [if_pos hp] at h
        have hi : st = i := Option.some.inj h
        subst hi
        exact ⟨x, by simp, hp, Nat.le_refl _,
          fun j y hj _ => absurd hj (by omega)⟩
      · rw [if_neg hp] at h
        obtain ⟨x0, hx0, hpx0, hst, hmin⟩ := ih (st + 1) i h
        refine ⟨x0, ?_, hpx0, by omega, ?_⟩
        · have he : i - st = (i - (st + 1)) + 1 := by omega
          rw [he]
          simpa using hx0
        · intro j y hj hjy
          cases j with
          | zero =>
              have hyx : x = y := by simpa using hjy
              subst hyx
              simpa using hp
          | succ j0 =>
              exact hmin j0 y (by omega) (by simpa using hjy)

theorem createBlockAdmit_spec (s : BSState) (size i : Nat)
    (h : (createBlockAdmit s size).1 = some i) :
    ∃ t, (createBlockAdmit s size).2.tiers[i]? = some t ∧
      size ≤ tierAvailable t ∧
      ∀ j t', j < i → (createBlockAdmit s size).2.tiers[j]? = some t' →
        tierAvailable t' < size := by
  cases hfi : s.tiers.findIdx? (fun t => size ≤ tierAvailable t) with
  | some i0 =>
      simp only [createBlockAdmit, hfi] at h ⊢
      have hi : i0 = i := Option.some.inj h
      subst hi
      obtain ⟨t, ht, hpt, _, hmin⟩ := findIdx_query_first _ _ 0 i0 hfi
      rw [Nat.sub_zero] at ht
      refine ⟨t, ht, by simpa using hpt, ?_⟩
      intro j t' hj hjt
      have := hmin j t' (by omega) hjt
      simpa using this
  | none =>
      simp only [createBlockAdmit, hfi] at h ⊢
      cases hts : s.tiers with
      | nil =>
          simp only [hts] at h
          simp at h
      | cons t0 trest =>
          simp only [hts] at h ⊢
          cases hs1 : (evictBlocks s t0.type size).2.tiers with
          | nil =>
              simp only [hs1] at h
              simp at h
          | cons t0' rest' =>
              simp only [hs1] at h ⊢
              by_cases hav : tierAvailable t0' < size
              · rw [if_pos hav] at h
                simp at h
              · rw [if_neg hav] at h ⊢
                have hi : (0 : Nat) = i := Option.some.inj h
                subst hi
                exact ⟨t0', by simp [hs1], by omega,
                  fun j t' hj _ => absurd hj (by omega)⟩

theorem containsA_insertA_self {α β : Type} [DecidableEq α]
    (m : List (α × β)) (k : α) (v : β) :
    containsA (insertA m k v) k = true := by
  simp [containsA, lookupA_insertA_self]

theorem tierAllocate_ok (t : Tier) (id size : Nat)
    (hnot : containsA t.blocks id = false) (hcap : t.used ≤ t.capacity)
    (hav : size ≤ tierAvailable t) :
    tierAllocate t id size =
      (Status.ok, { t with blocks := insertA t.blocks id size
                           used := t.used + size }) := by
  rw [tierAllocate, if_neg (by simp [hnot]), if_neg (by
    simp only [tierAvailable] at hav
    omega)]

theorem createBlockAt_ok (s1 : BSState) (i id size now : Nat) (t : Tier)
    (hti : s1.tiers[i]? = some t) (hav : size ≤ tierAvailable t)
    (hcap : t.used ≤ t.capacity) (hnot : containsA t.blocks id = false) :
    (createBlockAt s1 i id size now).1 = Status.ok := by
  simp only [createBlockAt, hti, tierAllocate_ok t id size hnot hcap hav]

theorem countTiersWith_set (ts : List Tier) (id : Nat) :
    ∀ (i : Nat) (t' : Tier), i < ts.length →
      (∀ t ∈ ts, containsA t.blocks id = false) →
      containsA t'.blocks id = true →
      countTiersWith (ts.set i t') id = 1 := by
  induction ts with
  | nil =>
      intro i t' hi _ _
      simp at hi
  | cons t0 rest ih =>
      intro i t' hi hall ht'
      cases i with
      | zero =>
          have hrest : rest.filter (fun t => containsA t.blocks id) = [] :=
            List.filter_eq_nil_iff.2 fun t ht => by
              simp [hall t (List.mem_cons_of_mem _ ht)]
          simp [countTiersWith, List.filter_cons, ht', hrest]
      | succ i0 =>
          have h0 : containsA t0.blocks id = false :=
            hall t0 (List.mem_cons_self _ _)
          have := ih i0 t' (by simpa using hi)
            (fun t ht => hall t (List.mem_cons_of_mem _ ht)) ht'
          simpa [countTiersWith, List.filter_cons, h0] using this

/-- C4 counterexample: on a single 100-byte memory tier, creating block 1 of
10 bytes and then block 2 of 86 bytes returns OK for block 2, yet the
watermark auto-eviction that CreateBlock runs after allocating has already
evicted block 2 itself, so the "successfully created" block resides in no
tier at all. -/
theorem claim_C4_counterexample :
    (createBlock (createBlock c4State 1 10 5).2 2 86 6).1 = Status.ok ∧
    countTiersWith
      (createBlock (createBlock c4State 1 10 5).2 2 86 6).2.tiers 2 = 0 := by
  decide

/-- C4 (amended): with tier used-byte counters within capacity and the block
id fresh in every tier of the admission state, CreateBlock behaves as
follows.  If admission fails — no tier has `size` available and even after
eviction on the fastest tier its available space is still short — the call
returns ResourceExhausted with the post-eviction state.  If admission picks
index `i`, that tier has `size` bytes available at admission, every faster
tier does not, the call returns OK, and immediately after the allocation the
block sits in exactly one tier.  The claim as stated fails in its "exactly
one tier after a successful call" reading: the watermark auto-eviction that
runs before CreateBlock returns can evict the block just created, leaving a
successful call whose block resides in no tier. -/
theorem claim_C4_create_block (s : BSState) (id size now : Nat)
    (hcap : ∀ t ∈ (createBlockAdmit s size).2.tiers, t.used ≤ t.capacity)
    (hnot : ∀ t ∈ (createBlockAdmit s size).2.tiers,
      containsA t.blocks id = false) :
    ((createBlockAdmit s size).1 = none →
      createBlock s id size now =
        (Status.resourceExhausted, (createBlockAdmit s size).2)) ∧
    (∀ i, (createBlockAdmit s size).1 = some i →
      ∃ t, (createBlockAdmit s size).2.tiers[i]? = some t ∧
        size ≤ tierAvailable t ∧
        (∀ j t', j < i → (createBlockAdmit s size).2.tiers[j]? = some t' →
          tierAvailable t' < size) ∧
        (createBlock s id size now).1 = Status.ok ∧
        countTiersWith ((createBlockAdmit s size).2.tiers.set i
          (tierAllocate t id size).2) id = 1) := by
  constructor
  · intro hnone
    rcases ha : createBlockAdmit s size with ⟨o, s1⟩
    rw [ha] at hnone
    simp only at hnone
    subst hnone
    simp [createBlock, ha]
  · intro i hi
    obtain ⟨t, hti, hav, hfirst⟩ := createBlockAdmit_spec s size i hi
    have hmem : t ∈ (createBlockAdmit s size).2.tiers :=
      List.getElem?_mem hti
    have htcap := hcap t hmem
    have htnot := hnot t hmem
    refine ⟨t, hti, hav, hfirst, ?_, ?_⟩
    · rcases ha : createBlockAdmit s size with ⟨o, s1⟩
      rw [ha] at hi hti
      simp only at hi hti
      subst hi
      simp only [createBlock, ha]
      exact createBlockAt_ok s1 i id size now t hti hav htcap htnot
    · obtain ⟨hlt, _⟩ := List.getElem?_eq_some.1 hti
      have hcont : containsA ((tierAllocate t id size).2).blocks id = true := by
        rw [tierAllocate_ok t id size htnot htcap hav]
        exact containsA_insertA_self t.blocks id size
      exact countTiersWith_set (createBlockAdmit s size).2.tiers id i
        (tierAllocate t id size).2 hlt hnot hcont

/-- Witness for C4 at the single-memory-tier state with block 1 of 10
bytes. -/
theorem claim_C4_create_block_witness :
    ((∀ t ∈ (createBlockAdmit c4State 10).2.tiers, t.used ≤ t.capacity) ∧
      (∀ t ∈ (createBlockAdmit c4State 10).2.tiers,
        containsA t.blocks 1 = false)) ∧
    (((createBlockAdmit c4State 10).1 = none →
      createBlock c4State 1 10 5 =
        (Status.resourceExhausted, (createBlockAdmit c4State 10).2)) ∧
    (∀ i, (createBlockAdmit c4State 10).1 = some i →
      ∃ t, (createBlockAdmit c4State 10).2.tiers[i]? = some t ∧
        10 ≤ tierAvailable t ∧
        (∀ j t', j < i → (createBlockAdmit c4State 10).2.tiers[j]? = some t' →
          tierAvailable t' < 10) ∧
        (createBlock c4State 1 10 5).1 = Status.ok ∧
        countTiersWith ((createBlockAdmit c4State 10).2.tiers.set i
          (tierAllocate t 1 10).2) 1 = 1)) :=
  ⟨⟨by decide, by decide⟩,
    claim_C4_create_block c4State 1 10 5 (by decide) (by decide)⟩

end AnyCache
